import Mathlib

/-!
Verification of the Cell/Value subsystem of `lib/cell.js`.

The JavaScript source is shallowly embedded: JavaScript values become the
inductive `JSVal`, each `Value` variant's model record becomes `VModel`, a
`Cell` becomes `CellSt`, and a collection of cells (the worksheet fragment
the operations act on) becomes `Sheet := List CellSt`, indexed by cell id.
Stateful methods become functions `Sheet → Sheet × Option JsErr`: the first
component is the post state (JavaScript exceptions do not roll back
mutations, so a faulting operation still returns the mutated state) and the
second component is the error that was thrown, if any.

External collaborators that are not part of the source file
(`colcache`, `enums`, the built-in `Date` methods) are modelled from the
spec where the spec constrains them, and kept abstract otherwise.
-/

/-- Modelled from the spec: the externally defined closed set of value-type
tags (`Enums.ValueType`): Null, Merge, Number, String, Date, Hyperlink,
Formula. -/
inductive VType where
  | null
  | merge
  | number
  | string
  | date
  | hyperlink
  | formula
deriving DecidableEq

/-- A JavaScript value, as far as the cell subsystem inspects one: `null`,
`undefined`, booleans, numbers, strings, `Date` objects (identified by their
instant), and plain objects.  The only object properties the source ever
reads are `text`, `hyperlink`, `formula` and `result`, so an object is
embedded as those four fields; a property that is absent on the JavaScript
object is the field `vUndef` (property access on a missing key yields
`undefined`). -/
inductive JSVal where
  | vNull
  | vUndef
  | vBool (b : Bool)
  | vNum (n : Int)
  | vStr (s : String)
  | vDate (t : Int)
  | vObj (text hyperlink formula result : JSVal)
deriving DecidableEq

/-- JavaScript truthiness for the embedded values:`null`, `undefined`,
`false`, `0` and `""` are falsy; objects and `Date`s are always truthy. -/
def truthy : JSVal → Bool
  | .vNull => false
  | .vUndef => false
  | .vBool b => b
  | .vNum n => n != 0
  | .vStr s => s != ""
  | .vDate _ => true
  | .vObj _ _ _ _ => true

/-- Property read `v.text` (missing property reads give `undefined`). -/
def jsText : JSVal → JSVal
  | .vObj t _ _ _ => t
  | _ => JSVal.vUndef

/-- Property read `v.hyperlink`. -/
def jsHyperlink : JSVal → JSVal
  | .vObj _ h _ _ => h
  | _ => JSVal.vUndef

/-- Property read `v.formula`. -/
def jsFormula : JSVal → JSVal
  | .vObj _ _ f _ => f
  | _ => JSVal.vUndef

/-- Property read `v.result`. -/
def jsResult : JSVal → JSVal
  | .vObj _ _ _ r => r
  | _ => JSVal.vUndef

/-- Modelled from the spec: the rendering the external `Date.prototype.toString`
built-in produces for an instant (only used via string coercion of a `Date`;
no claim constrains its exact text, it only has to be a fixed function of
the instant). -/
def dateToString (t : Int) : String := "Date(" ++ toString t ++ ")"

/-- Modelled from the spec: the ISO-8601 rendering the external
`Date.prototype.toISOString` built-in produces for an instant (kept as a
fixed abstract function of the instant). -/
def dateToISOString (t : Int) : String := "ISO-8601(" ++ toString t ++ ")"

/-- JavaScript string coercion `"" + v` for the embedded values. -/
def jsToString : JSVal → String
  | .vNull => "null"
  | .vUndef => "undefined"
  | .vBool b => cond b "true" "false"
  | .vNum n => toString n
  | .vStr s => s
  | .vDate t => dateToString t
  | .vObj _ _ _ _ => "[object Object]"

/-- The errors the subsystem can raise.  `typeError` stands for the
JavaScript `TypeError` raised by a property access or method call on
`undefined`; `fuelOut` is the embedding's marker for a computation that
would not terminate in JavaScript (merge cycles). -/
inductive JsErr where
  | missingOwner
  | invalidAddress
  | unrecognizedType
  | unknownValueType
  | unsupportedResultType
  | typeError
  | fuelOut
deriving DecidableEq

/-- `Value.getType` of `cell.js`: classify a raw payload, in source order:
null/undefined, string, number, `Date`, object with truthy `text` and
`hyperlink`, object with truthy `formula`; anything else throws the
"I could not understand type of value" error (`unrecognizedType`). -/
def Value.getType : JSVal → Except JsErr VType
  | .vNull => .ok .null
  | .vUndef => .ok .null
  | .vStr _ => .ok .string
  | .vNum _ => .ok .number
  | .vDate _ => .ok .date
  | .vBool _ => .error .unrecognizedType
  | .vObj t h f _ =>
    if truthy t && truthy h then .ok .hyperlink
    else if truthy f then .ok .formula
    else .error .unrecognizedType

deriving instance DecidableEq for Except

/-- The `model` record a `Value` variant stores.  Every variant constructor
of the source assigns an object literal with `address` and `type` plus its
own payload fields; the `model` setter replaces the whole record with a
caller-supplied object, which may also carry `style` and the fields of other
variants, so one uniform record with every possible field (absent = `vUndef`,
except `mtype`, where `none` embeds a type tag outside the closed enum)
represents all of them. -/
structure VModel where
  address : JSVal
  mtype : Option VType
  value : JSVal
  text : JSVal
  hyperlink : JSVal
  formula : JSVal
  result : JSVal
  master : JSVal
  style : JSVal
deriving DecidableEq

/-- A model record with every payload field absent. -/
def freshVModel (addr : String) : VModel :=
  ⟨.vStr addr, none, .vUndef, .vUndef, .vUndef, .vUndef, .vUndef, .vUndef, .vUndef⟩

/-- The active `Value` variant of a cell.  `mergeV` additionally carries the
live `_master` reference (a cell id, `none` when `_master` is `undefined`)
and a ghost flag recording whether `release()` has already run on this
instance (the flag has no effect on any operation; it only lets the
specification talk about "live, not-yet-released" Merge variants). -/
inductive Val where
  | nullV (model : VModel)
  | numberV (model : VModel)
  | stringV (model : VModel)
  | dateV (model : VModel)
  | hyperV (model : VModel)
  | formulaV (model : VModel)
  | mergeV (model : VModel) (mmaster : Option Nat) (released : Bool)
deriving DecidableEq

/-- The model record stored by a variant (the `model` property). -/
def Val.modelOf : Val → VModel
  | .nullV m => m
  | .numberV m => m
  | .stringV m => m
  | .dateV m => m
  | .hyperV m => m
  | .formulaV m => m
  | .mergeV m _ _ => m

/-- Replace the stored model record wholesale (`this._value.model = value`);
a Merge variant's `_master` field is untouched, exactly as in the source. -/
def Val.withModel : Val → VModel → Val
  | .nullV _, m => .nullV m
  | .numberV _, m => .numberV m
  | .stringV _, m => .stringV m
  | .dateV _, m => .dateV m
  | .hyperV _, m => .hyperV m
  | .formulaV _, m => .formulaV m
  | .mergeV _ mm r, m => .mergeV m mm r

/-- The constant `type` getter of each variant. -/
def Val.typeOf : Val → VType
  | .nullV _ => .null
  | .numberV _ => .number
  | .stringV _ => .string
  | .dateV _ => .date
  | .hyperV _ => .hyperlink
  | .formulaV _ => .formula
  | .mergeV _ _ _ => .merge

/-- Whether the variant is a Merge holding a live `_master` reference. -/
def Val.isMergeWithMaster : Val → Bool
  | .mergeV _ (some _) _ => true
  | _ => false

/-- `Value.create(type, cell, value)` for every call site that passes a raw
payload (or no payload, i.e. `undefined`): builds the variant's constructor
object.  `NullValue` stores no payload; `NumberValue`/`StringValue`/
`DateValue` store `value`; `HyperlinkValue` stores `value.text` and
`value.hyperlink` guarded by `value ? ... : undefined`; `FormulaValue`
stores `value.formula` and `value.result` with the same guard; `MergeValue`
reached with a non-Cell payload (only the model-import path, where the
payload is `undefined`) stores an `undefined` `_master` and does not touch
any merge-reference count. -/
def Value.createPlain (t : VType) (addr : String) (v : JSVal) : Val :=
  match t with
  | .null => .nullV { freshVModel addr with mtype := some .null }
  | .number => .numberV { freshVModel addr with mtype := some .number, value := v }
  | .string => .stringV { freshVModel addr with mtype := some .string, value := v }
  | .date => .dateV { freshVModel addr with mtype := some .date, value := v }
  | .hyperlink => .hyperV { freshVModel addr with
      mtype := some .hyperlink,
      text := if truthy v then jsText v else .vUndef,
      hyperlink := if truthy v then jsHyperlink v else .vUndef }
  | .formula => .formulaV { freshVModel addr with
      mtype := some .formula,
      formula := if truthy v then jsFormula v else .vUndef,
      result := if truthy v then jsResult v else .vUndef }
  | .merge => .mergeV { freshVModel addr with mtype := some .merge } none false

/-- `value.replace(/"/g, '""')` bracketed in double quotes: the String
variant's CSV escape. -/
def csvQuote (s : String) : String :=
  "\"" ++ String.mk (s.toList.flatMap (fun c => if c = '"' then ['"', '"'] else [c])) ++ "\""

/-- `toCsvString()` of each variant.  The JavaScript return value is not
always a string (`HyperlinkValue` returns the raw `hyperlink` property), so
the result is a `JSVal`; a call that would throw (`.replace`/`.toISOString`
on a payload of the wrong runtime type) is an error. -/
def Val.toCsvString : Val → Except JsErr JSVal
  | .nullV _ => .ok (.vStr "")
  | .numberV m => .ok (.vStr (jsToString m.value))
  | .stringV m =>
    match m.value with
    | .vStr s => .ok (.vStr (csvQuote s))
    | _ => .error .typeError
  | .dateV m =>
    match m.value with
    | .vDate t => .ok (.vStr (dateToISOString t))
    | _ => .error .typeError
  | .hyperV m => .ok m.hyperlink
  | .mergeV _ _ _ => .ok (.vStr "")
  | .formulaV m => .ok (.vStr (if truthy m.result then jsToString m.result else ""))

/-- The state of one `Cell`: the constructor arguments `row` (the owning Row
object, stored into `_row`) and the validated `address`, plus `style`
(opaque object), the active value `_value`, the merge-reference counter
`_mergeCount` (a JavaScript number: it is not clamped, so it is an `Int`),
and the lazily-filled `_col` cache. -/
structure CellSt where
  rowArg : JSVal
  address : String
  style : JSVal
  value : Val
  mergeCount : Int
  colCache : Option Nat
deriving DecidableEq

/-- The worksheet fragment the operations act on: cells indexed by id. -/
abbrev Sheet := List CellSt

/-- A fresh empty style object `{}`. -/
def emptyStyle : JSVal := .vObj .vUndef .vUndef .vUndef JSVal.vUndef

/-- Update the cell at index `i` (no-op when out of range, which the
operations never rely on: they check the cell exists first). -/
def modifyAt : Sheet → Nat → (CellSt → CellSt) → Sheet
  | [], _, _ => []
  | c :: t, 0, f => f c :: t
  | c :: t, Nat.succ n, f => c :: modifyAt t n f

/-- Mark a Merge variant's ghost released flag (identity on every other
variant); applied wherever the source runs `release()` on the variant. -/
def Val.markReleased : Val → Val
  | .mergeV m mm _ => .mergeV m mm true
  | v => v

/-- `releaseMergeRef()`: decrement a cell's `_mergeCount`. -/
def decCount (c : CellSt) : CellSt := { c with mergeCount := c.mergeCount - 1 }

/-- `addMergeRef()`: increment a cell's `_mergeCount`. -/
def incCount (c : CellSt) : CellSt := { c with mergeCount := c.mergeCount + 1 }

/-- Install a new active value on a cell. -/
def putVal (v : Val) (c : CellSt) : CellSt := { c with value := v }

/-- Set the ghost released flag on a cell's active value. -/
def relVal (c : CellSt) : CellSt := { c with value := c.value.markReleased }

/-- `this._value.release()` on cell `i`: a no-op for every variant except
Merge, whose `release` runs `this._master.releaseMergeRef()` — a `TypeError`
when `_master` is `undefined`, otherwise a decrement of the master's
`_mergeCount`.  The ghost released flag is set on the variant. -/
def releaseVal (s : Sheet) (i : Nat) : Sheet × Option JsErr :=
  match s[i]? with
  | none => (s, some .typeError)
  | some c =>
    match c.value with
    | .mergeV _ mm _ =>
      match mm with
      | none => (s, some .typeError)
      | some k =>
        match s[k]? with
        | none => (s, some .typeError)
        | some _ =>
          (modifyAt (modifyAt s k decCount) i relVal, none)
    | _ => (s, none)

/-- The `value` setter of `Cell`.  A Merge cell forwards the write to
`this._value.master.value` (a `TypeError` when `_master` is `undefined`);
otherwise the current value is released (a no-op: it is not a Merge here)
and a fresh variant is built from the inferred type.  The forwarding can
recurse through chains of Merge cells, so the function takes fuel; in
JavaScript a merge cycle would simply never terminate. -/
def setValueF : Nat → Sheet → Nat → JSVal → Sheet × Option JsErr
  | 0, s, _, _ => (s, some .fuelOut)
  | Nat.succ f, s, i, v =>
    match s[i]? with
    | none => (s, some .typeError)
    | some c =>
      match c.value with
      | .mergeV _ mm _ =>
        match mm with
        | none => (s, some .typeError)
        | some j => setValueF f s j v
      | _ =>
        match Value.getType v with
        | .error e => (s, some e)
        | .ok t => (modifyAt s i (fun ci => putVal (Value.createPlain t ci.address v) ci), none)

/-- The `value` getter of `Cell`: `this._value.value`.  Null yields `null`,
Number/String/Date yield the stored payload, Hyperlink yields a fresh
`{text, hyperlink}` object, Formula a fresh `{formula, result}` object, and
Merge delegates to `this._master.value` (a `TypeError` when `_master` is
`undefined`), which recurses through the master cell's own getter. -/
def readValueF : Nat → Sheet → Nat → Except JsErr JSVal
  | 0, _, _ => .error .fuelOut
  | Nat.succ f, s, i =>
    match s[i]? with
    | none => .error .typeError
    | some c =>
      match c.value with
      | .nullV _ => .ok .vNull
      | .numberV m => .ok m.value
      | .stringV m => .ok m.value
      | .dateV m => .ok m.value
      | .hyperV m => .ok (.vObj m.text m.hyperlink .vUndef .vUndef)
      | .formulaV m => .ok (.vObj .vUndef .vUndef m.formula m.result)
      | .mergeV _ mm _ =>
        match mm with
        | none => .error .typeError
        | some j => readValueF f s j

/-- `cell.value` with enough fuel for any chain of distinct masters. -/
def readValue (s : Sheet) (i : Nat) : Except JsErr JSVal :=
  readValueF (s.length + 1) s i

/-- `cell.merge(master)`: release the current value, then construct
`MergeValue(this, master)`, whose constructor stores the master's address in
the model, keeps the live `_master` reference and runs `master.addMergeRef()`. -/
def mergeOp (s : Sheet) (i j : Nat) : Sheet × Option JsErr :=
  match s[i]? with
  | none => (s, some .typeError)
  | some _ =>
    match releaseVal s i with
    | (s1, some e) => (s1, some e)
    | (s1, none) =>
      match s1[j]? with
      | none => (s1, some .typeError)
      | some cj =>
        let addr := match s1[i]? with
          | some ci => ci.address
          | none => ""
        let newVal : Val := .mergeV
          { freshVModel addr with mtype := some .merge, master := .vStr cj.address }
          (some j) false
        (modifyAt (modifyAt s1 j incCount) i (putVal newVal), none)

/-- `cell.unmerge()`: only when the current type is Merge, release it and
revert to a fresh `NullValue`; otherwise do nothing. -/
def unmergeOp (s : Sheet) (i : Nat) : Sheet × Option JsErr :=
  match s[i]? with
  | none => (s, some .typeError)
  | some c =>
    match c.value with
    | .mergeV _ _ _ =>
      match releaseVal s i with
      | (s1, some e) => (s1, some e)
      | (s1, none) =>
        (modifyAt s1 i (fun ci => putVal (Value.createPlain .null ci.address .vUndef) ci), none)
    | _ => (s, none)

/-- `MergeValue`'s `value` setter applied to a `Cell` argument: re-target
the merge.  `if (this._master) this._master.releaseMergeRef();` then
`value.addMergeRef()` and `this._master = value`.  The stored model's
`master` address is not updated (faithful to the source). -/
def retargetOp (s : Sheet) (i j : Nat) : Sheet × Option JsErr :=
  match s[i]? with
  | none => (s, some .typeError)
  | some c =>
    match c.value with
    | .mergeV m mm r =>
      let s1 := match mm with
        | some k => modifyAt s k decCount
        | none => s
      (modifyAt (modifyAt s1 j incCount) i (putVal (.mergeV m (some j) r)), none)
    | _ => (s, some .typeError)

/-- The `model` setter of `Cell`: release the current value, build a bare
variant from the model's `type` tag via the factory (an unrecognized tag
throws, after the release has already happened), replace the variant's
model record wholesale, and install the model's style (or a fresh `{}`). -/
def setModelOp (s : Sheet) (i : Nat) (m : VModel) : Sheet × Option JsErr :=
  match s[i]? with
  | none => (s, some .typeError)
  | some _ =>
    match releaseVal s i with
    | (s1, some e) => (s1, some e)
    | (s1, none) =>
      match m.mtype with
      | none => (s1, some .unknownValueType)
      | some t =>
        (modifyAt s1 i (fun c =>
          { c with
            value := (Value.createPlain t c.address .vUndef).withModel m,
            style := if truthy m.style then m.style else emptyStyle }), none)

/-- The `model` getter of `Cell`: take the active value's model object, set
its `style` property to the cell's style (this mutates the stored record:
the getter returns the internal object, not a copy) and return it. -/
def readModelOp (s : Sheet) (i : Nat) : Option VModel × Sheet :=
  match s[i]? with
  | none => (none, s)
  | some c =>
    let m := { c.value.modelOf with style := c.style }
    (some m, modifyAt s i (fun ci => { ci with value := ci.value.withModel m }))

/-- The `type` getter of `Cell`. -/
def cellType (s : Sheet) (i : Nat) : Option VType :=
  s[i]?.map (fun c => c.value.typeOf)

/-- The `master` getter of `Cell`: for a Merge cell, `this._value.master`
(possibly `undefined`); otherwise the cell itself. -/
def cellMaster (s : Sheet) (i : Nat) : Option Nat :=
  match s[i]? with
  | none => none
  | some c =>
    match c.value with
    | .mergeV _ mm _ => mm
    | _ => some i

/-- `cell.isMergedTo(master)`: current value is a Merge whose `_master` is
reference-identical to the given cell. -/
def isMergedTo (s : Sheet) (i j : Nat) : Bool :=
  match s[i]? with
  | none => false
  | some c =>
    match c.value with
    | .mergeV _ mm _ => mm == some j
    | _ => false

/-- `cell.toCsvString()`: delegate to the active value. -/
def cellToCsvString (s : Sheet) (i : Nat) : Except JsErr JSVal :=
  match s[i]? with
  | none => .error .typeError
  | some c => c.value.toCsvString

/-- Character class `[A-Z]`. -/
def isUpper (c : Char) : Bool := 'A' ≤ c && c ≤ 'Z'

/-- Character class `[a-z]`. -/
def isLower (c : Char) : Bool := 'a' ≤ c && c ≤ 'z'

/-- Character class `[0-9]` (`\d`). -/
def isDigitCh (c : Char) : Bool := '0' ≤ c && c ≤ '9'

/-- Character class `[a-zA-Z0-9]`. -/
def isAlnum (c : Char) : Bool := isUpper c || isLower c || isDigitCh c

/-- Modelled from the spec: the external address utility's
`letterToNumber` (`colCache.l2n`): base-26 value of an uppercase column
name, `A` = 1. -/
def l2n (letters : List Char) : Nat :=
  letters.foldl (fun acc c => acc * 26 + (c.toNat - 64)) 0

/-- Modelled from the spec: the external address utility's
`validateAddress`: an address is well formed when it is one run of
uppercase column letters followed by one run of row digits. -/
def validAddress (a : String) : Bool :=
  let l := a.toList
  let ls := l.takeWhile isUpper
  let rest := l.dropWhile isUpper
  (!ls.isEmpty) && (!rest.isEmpty) && rest.all isDigitCh

/-- `address.match(/[A-Z]+/)[0]`: the first maximal run of uppercase
letters (empty when there is none; for a validated address there is one). -/
def firstUpperRun (a : String) : List Char :=
  ((a.toList.dropWhile (fun c => !isUpper c)).takeWhile isUpper)

/-- `parseInt(address.match(/\d+/)[0])`: the first maximal run of digits,
read as a number (0 when there is none; for a validated address the run is
nonempty, and outside that case the JavaScript call would throw before
parsing). -/
def firstDigitsRun (a : String) : Nat :=
  ((a.toList.dropWhile (fun c => !isDigitCh c)).takeWhile isDigitCh).foldl
    (fun acc c => acc * 10 + (c.toNat - 48)) 0

/-- The `Cell` constructor: a falsy `row` throws "A Cell needs a Row"; the
address is validated by the external utility; the cell starts with a fresh
`NullValue`, an empty style and `_mergeCount = 0`.  The constructor stores
the owning Row object itself into `this._row`. -/
def mkCell (row : JSVal) (address : String) : Except JsErr CellSt :=
  if !truthy row then .error .missingOwner
  else if !validAddress address then .error .invalidAddress
  else .ok
    { rowArg := row
      address := address
      style := emptyStyle
      value := Value.createPlain .null address .vUndef
      mergeCount := 0
      colCache := none }

/-- The `row` getter: `if (!this._row) this._row = parseInt(...); return
this._row`.  The returned value is whatever `_row` holds — for a
constructed cell that is the owning Row object, so the lazy parse only runs
when `_row` is falsy. -/
def rowGet (c : CellSt) : JSVal × CellSt :=
  if truthy c.rowArg then (c.rowArg, c)
  else
    let r : JSVal := .vNum (firstDigitsRun c.address)
    (r, { c with rowArg := r })

/-- The `col` getter: `if (!this._col) this._col = colCache.l2n(...);
return this._col` — parse the address's letter prefix on first access and
cache the result. -/
def colGet (c : CellSt) : Nat × CellSt :=
  match c.colCache with
  | some n => (n, c)
  | none =>
    let n := l2n (firstUpperRun c.address)
    (n, { c with colCache := some n })

/-!
The regular expressions of `FormulaValue.dependencies`:

  ranges: `([a-zA-Z0-9]+!)?[A-Z]{1,3}\d{1,4}:[A-Z]{1,3}\d{1,4}` (global)
  cells:  `([a-zA-Z0-9]+!)?[A-Z]{1,3}\d{1,4}` (global, on the text with the
          range matches removed)

The matchers below reproduce the JavaScript engine's leftmost/greedy
backtracking semantics for exactly these patterns, simplified using three
facts about them.  First, `[a-zA-Z0-9]+` is greedy and `!` is not
alphanumeric, so the optional sheet group can only match the entire maximal
alphanumeric run followed by `!`; if the rest of the pattern then fails,
the only other alternative the group contributes is matching nothing.
Second, `[A-Z]{1,3}` followed by `\d` can only succeed by consuming an
entire maximal uppercase run of length 1–3 (backtracking to fewer letters
leaves an uppercase letter next, which is not a digit).  Third,
`\d{1,4}` followed by `:` can only consume an entire maximal digit run of
length 1–4, while a trailing `\d{1,4}` greedily takes up to four digits of
the run. -/

/-- Try the optional sheet group `([a-zA-Z0-9]+!)?` at the head of `s`:
the maximal alphanumeric run (nonempty) followed by `!`. -/
def tryPfx (s : List Char) : Option (List Char × List Char) :=
  match s.takeWhile isAlnum, s.dropWhile isAlnum with
  | [], _ => none
  | _ :: _, [] => none
  | c :: cs, d :: rest2 =>
    if d = '!' then some ((c :: cs) ++ [d], rest2) else none

/-- Try `[A-Z]{1,3}\d{1,4}` at the head of `s` (no following colon):
matched text and remainder. -/
def cellCore (s : List Char) : Option (List Char × List Char) :=
  let ls := s.takeWhile isUpper
  let r1 := s.dropWhile isUpper
  if 1 ≤ ls.length && ls.length ≤ 3 then
    let ds := r1.takeWhile isDigitCh
    let r2 := r1.dropWhile isDigitCh
    if 1 ≤ ds.length then
      some (ls ++ ds.take 4, ds.drop 4 ++ r2)
    else none
  else none

/-- Try `[A-Z]{1,3}\d{1,4}:[A-Z]{1,3}\d{1,4}` at the head of `s`. -/
def rangeCore (s : List Char) : Option (List Char × List Char) :=
  let ls := s.takeWhile isUpper
  let r1 := s.dropWhile isUpper
  if 1 ≤ ls.length && ls.length ≤ 3 then
    let ds := r1.takeWhile isDigitCh
    let r2 := r1.dropWhile isDigitCh
    if 1 ≤ ds.length && ds.length ≤ 4 then
      match r2 with
      | [] => none
      | c :: r3 =>
        if c = ':' then
          let ls2 := r3.takeWhile isUpper
          let r4 := r3.dropWhile isUpper
          if 1 ≤ ls2.length && ls2.length ≤ 3 then
            let ds2 := r4.takeWhile isDigitCh
            let r5 := r4.dropWhile isDigitCh
            if 1 ≤ ds2.length then
              some (ls ++ ds ++ [c] ++ ls2 ++ ds2.take 4, ds2.drop 4 ++ r5)
            else none
          else none
        else none
    else none
  else none

/-- Attach the optional sheet group to a core matcher: try the group first
(greedy), fall back to the bare core at the same position. -/
def withPfx (core : List Char → Option (List Char × List Char))
    (s : List Char) : Option (List Char × List Char) :=
  match tryPfx s with
  | some (p, rest) =>
    match core rest with
    | some (m, r) => some (p ++ m, r)
    | none => core s
  | none => core s

/-- One attempt of the range pattern at the head of `s`. -/
def matchRangeAt (s : List Char) : Option (List Char × List Char) :=
  withPfx rangeCore s

/-- One attempt of the cell pattern at the head of `s`. -/
def matchCellAt (s : List Char) : Option (List Char × List Char) :=
  withPfx cellCore s

/-- The global scan shared by `String.prototype.match(re)` with a `g` flag
and `String.prototype.replace(re, "")`: walk left to right, at each
position attempt the pattern; on a match record it and resume after it, on
a failure keep the character and move one position right.  Returns the list
of matches and the text with the matches removed.  Fuel bounds the walk
(`s.length` always suffices: every step consumes at least one character). -/
def scanAllF (tryM : List Char → Option (List Char × List Char)) :
    Nat → List Char → List (List Char) × List Char
  | 0, s => ([], s)
  | Nat.succ _, [] => ([], [])
  | Nat.succ f, c :: rest =>
    match tryM (c :: rest) with
    | some (m, r) =>
      let (ms, out) := scanAllF tryM f r
      (m :: ms, out)
    | none =>
      let (ms, out) := scanAllF tryM f rest
      (ms, c :: out)

/-- `text.match(re)` with a global flag: `null` (`none`) when there is no
match, otherwise the list of matched substrings. -/
def jsMatch (tryM : List Char → Option (List Char × List Char)) (s : String) :
    Option (List String) :=
  let ms := (scanAllF tryM s.toList.length s.toList).1
  if ms.isEmpty then none else some (ms.map (fun l => String.mk l))

/-- `text.replace(re, "")` with a global flag. -/
def jsReplace (tryM : List Char → Option (List Char × List Char)) (s : String) :
    String :=
  String.mk (scanAllF tryM s.toList.length s.toList).2

/-- `FormulaValue`'s `dependencies` getter on a formula text: the range
matches of the text, and the cell matches of the text with the range
matches removed.  The pair is the `{ranges, cells}` object. -/
def dependenciesOf (formulaText : String) : Option (List String) × Option (List String) :=
  (jsMatch matchRangeAt formulaText,
   jsMatch matchCellAt (jsReplace matchRangeAt formulaText))

/-- The state a successful `Cell` constructor produces (see `mkCell`). -/
def freshCell (row : JSVal) (addr : String) : CellSt :=
  { rowArg := row
    address := addr
    style := emptyStyle
    value := Value.createPlain .null addr .vUndef
    mergeCount := 0
    colCache := none }

/-- A freshly constructed cell with an arbitrary truthy owning Row. -/
def plainCell (addr : String) : CellSt := freshCell (.vBool true) addr

/-- A worksheet fragment of freshly constructed cells. -/
def initSheet (ps : List (JSVal × String)) : Sheet :=
  ps.map (fun p => freshCell p.1 p.2)

/-- Whether a variant is a live (not yet released) Merge whose `_master`
reference points at cell `t`. -/
def liveTo (t : Nat) (v : Val) : Bool :=
  match v with
  | .mergeV _ (some j) r => !r && j == t
  | _ => false

/-- Whether a cell's active value is a live Merge pointing at cell `t`. -/
def liveMergeTo (t : Nat) (c : CellSt) : Bool := liveTo t c.value

/-- The number of live Merge variants in the sheet whose master reference
points at cell `t`. -/
def refCount (s : Sheet) (t : Nat) : Nat := List.countP (liveMergeTo t) s

/-- Whether a variant has not been released (trivially true for non-Merge
variants, whose `release` is a no-op). -/
def isLive (v : Val) : Bool :=
  match v with
  | .mergeV _ _ r => !r
  | _ => true

/-- Every active value in the sheet is unreleased. -/
def allLive (s : Sheet) : Bool := s.all (fun c => isLive c.value)

/-- Every cell's `_mergeCount` equals the number of live Merge variants
whose master reference points at it. -/
def goodSheet (s : Sheet) : Bool :=
  (List.range s.length).all (fun t =>
    match s[t]? with
    | some c => c.mergeCount == (refCount s t : Int)
    | none => true)

/-- Propositional form of `allLive`. -/
def AllLiveP (s : Sheet) : Prop :=
  ∀ (t : Nat) (c : CellSt), s[t]? = some c → isLive c.value = true

/-- Propositional form of `goodSheet`. -/
def GoodP (s : Sheet) : Prop :=
  ∀ (t : Nat) (c : CellSt), s[t]? = some c → c.mergeCount = (refCount s t : Int)

/-- One successfully completing public operation: merge, unmerge, value
assignment (with any fuel), merge re-targeting, or model import.
(`release` is not a standalone step: per the variant contract it runs
exactly once, inside the operation that replaces the value.) -/
inductive Step : Sheet → Sheet → Prop where
  | mergeS {s s' : Sheet} (i j : Nat) : mergeOp s i j = (s', none) → Step s s'
  | unmergeS {s s' : Sheet} (i : Nat) : unmergeOp s i = (s', none) → Step s s'
  | setValS {s s' : Sheet} (f i : Nat) (v : JSVal) : setValueF f s i v = (s', none) → Step s s'
  | retargetS {s s' : Sheet} (i j : Nat) : retargetOp s i j = (s', none) → Step s s'
  | setModelS {s s' : Sheet} (i : Nat) (m : VModel) : setModelOp s i m = (s', none) → Step s s'

/-- Sheets reachable from a population of freshly constructed cells by
successfully completing public operations. -/
inductive Reachable : Sheet → Prop where
  | init (ps : List (JSVal × String)) : Reachable (initSheet ps)
  | step {s s' : Sheet} : Reachable s → Step s s' → Reachable s'

/-!
A heap-explicit rendering of the `model` getter, for the aliasing claim:
model records and style objects live in stores indexed by references, a
cell holds references, and the getter returns a reference (the JavaScript
object identity), not a copy.
-/

/-- A heap-resident model record: the data fields plus the `style`
property, which after a getter run holds a reference to a style object
(`none` while the property is absent). -/
structure HModel where
  core : VModel
  styleRef : Option Nat
deriving DecidableEq

/-- The model-record heap. -/
def HModelStore := Nat → HModel

/-- The style-object heap. -/
def HStyleStore := Nat → JSVal

/-- A cell as the heap view sees it: a reference to its active value's
model record and a reference to its style object. -/
structure HCell where
  modelRef : Nat
  styleRef : Nat
deriving DecidableEq

/-- The `model` getter of `Cell`, heap-explicit:
`var model = this._value.model; model.style = this.style; return model;` —
look up the active value's model record, store the cell's style reference
into its `style` property, and return that same record's reference. -/
def hGetModel (c : HCell) (σ : HModelStore) : Nat × HModelStore :=
  (c.modelRef,
   Function.update σ c.modelRef { σ c.modelRef with styleRef := some c.styleRef })





/-!  Basic lemmas about `modifyAt` and reference counting. -/

theorem length_modifyAt (s : Sheet) (i : Nat) (f : CellSt → CellSt) :
    (modifyAt s i f).length = s.length := by
  induction s generalizing i with
  | nil => rfl
  | cons c t ih =>
    cases i with
    | zero => rfl
    | succ n => simpa [modifyAt] using ih n

theorem getq_modifyAt_self (s : Sheet) (i : Nat) (f : CellSt → CellSt) :
    (modifyAt s i f)[i]? = s[i]?.map f := by
  induction s generalizing i with
  | nil => rfl
  | cons c t ih =>
    cases i with
    | zero => simp [modifyAt]
    | succ n => simpa [modifyAt] using ih n

theorem getq_modifyAt_ne (s : Sheet) (f : CellSt → CellSt) {i j : Nat} (h : j ≠ i) :
    (modifyAt s i f)[j]? = s[j]? := by
  induction s generalizing i j with
  | nil => rfl
  | cons c t ih =>
    cases i with
    | zero =>
      cases j with
      | zero => exact absurd rfl h
      | succ m => simp [modifyAt]
    | succ n =>
      cases j with
      | zero => simp [modifyAt]
      | succ m => simpa [modifyAt] using ih (fun hc => h (by simp [hc]))

theorem countP_modifyAt (p : CellSt → Bool) (s : Sheet) (i : Nat) (f : CellSt → CellSt) :
    List.countP p (modifyAt s i f) +
      (match s[i]? with
       | some c => cond (p c) 1 0
       | none => 0) =
    List.countP p s +
      (match s[i]? with
       | some c => cond (p (f c)) 1 0
       | none => 0) := by
  induction s generalizing i with
  | nil => rfl
  | cons c t ih =>
    cases i with
    | zero =>
      simp only [modifyAt, List.countP_cons, List.getElem?_cons_zero]
      cases hp : p c <;> cases hpf : p (f c) <;> simp [hp, hpf]
    | succ n =>
      have h := ih n
      simp only [modifyAt, List.countP_cons, List.getElem?_cons_succ]
      cases hp : p c <;> (try simp [hp]) <;> omega

theorem lt_of_getq_eq_some {s : Sheet} {i : Nat} {c : CellSt} (h : s[i]? = some c) :
    i < s.length :=
  (List.getElem?_eq_some.1 h).1

theorem getq_eq_some_of_lt {s : Sheet} {i : Nat} (h : i < s.length) :
    ∃ c, s[i]? = some c :=
  ⟨s[i], List.getElem?_eq_some.2 ⟨h, rfl⟩⟩

theorem mem_of_getq_eq_some {s : Sheet} {i : Nat} {c : CellSt} (h : s[i]? = some c) :
    c ∈ s := by
  obtain ⟨hlt, rfl⟩ := List.getElem?_eq_some.1 h
  exact List.getElem_mem hlt

theorem modifyAt_eq_self {s : Sheet} {i : Nat} {f : CellSt → CellSt} {c : CellSt}
    (h : s[i]? = some c) (hf : f c = c) : modifyAt s i f = s := by
  induction s generalizing i with
  | nil => rfl
  | cons a t ih =>
    cases i with
    | zero =>
      simp only [List.getElem?_cons_zero, Option.some.injEq] at h
      subst h
      simp [modifyAt, hf]
    | succ n =>
      simp only [List.getElem?_cons_succ] at h
      simp [modifyAt, ih h]

/-- A count-only cell update never changes any reference count. -/
theorem refCount_modifyAt_count (s : Sheet) (k : Nat) (g : CellSt → CellSt)
    (hg : ∀ c, (g c).value = c.value) (t : Nat) :
    refCount (modifyAt s k g) t = refCount s t := by
  have h := countP_modifyAt (liveMergeTo t) s k g
  have hsame : ∀ c : CellSt, liveMergeTo t (g c) = liveMergeTo t c := by
    intro c
    simp [liveMergeTo, hg]
  cases hk : s[k]? with
  | none => simpa [refCount, hk] using h
  | some c => simpa [refCount, hk, hsame] using h

/-- Updating a cell's value shifts each reference count by the difference
of the old and new values' live-merge contributions. -/
theorem refCount_modifyAt_value (s : Sheet) (i : Nat) (f : CellSt → CellSt) (t : Nat)
    {c : CellSt} (hc : s[i]? = some c) :
    refCount (modifyAt s i f) t + cond (liveMergeTo t c) 1 0 =
      refCount s t + cond (liveMergeTo t (f c)) 1 0 := by
  have h := countP_modifyAt (liveMergeTo t) s i f
  simpa [refCount, hc] using h

theorem goodSheet_iff {s : Sheet} : goodSheet s = true ↔ GoodP s := by
  constructor
  · intro h t c hc
    have ht := lt_of_getq_eq_some hc
    have h2 := (List.all_eq_true.1 h) t (List.mem_range.2 ht)
    simp only [hc, beq_iff_eq] at h2
    exact h2
  · intro h
    refine List.all_eq_true.2 ?_
    intro t _
    cases hc : s[t]? with
    | none => simp
    | some c => simp [h t c hc]

theorem allLive_iff {s : Sheet} : allLive s = true ↔ AllLiveP s := by
  constructor
  · intro h t c hc
    exact (List.all_eq_true.1 h) c (mem_of_getq_eq_some hc)
  · intro h
    refine List.all_eq_true.2 ?_
    intro c hc
    obtain ⟨t, ht⟩ := List.mem_iff_getElem?.1 hc
    exact h t c ht

/-- `Value.getType` never classifies a payload as Merge. -/
theorem getType_ne_merge {v : JSVal} {t : VType} (h : Value.getType v = .ok t) :
    t ≠ .merge := by
  intro ht
  subst ht
  cases v <;> simp only [Value.getType] at h <;> try exact absurd h (by decide)
  split at h
  · exact absurd h (by decide)
  · split at h
    · exact absurd h (by decide)
    · exact absurd h (by decide)

/-- A variant freshly built from a payload is never a live merge reference
and is always unreleased. -/
theorem createPlain_live (t : VType) (a : String) (v : JSVal) :
    isLive (Value.createPlain t a v) = true ∧
      ∀ x, liveTo x (Value.createPlain t a v) = false := by
  cases t <;> simp [Value.createPlain, isLive, liveTo]

/-!  Counter bookkeeping lemmas for the merge-reference invariant. -/

theorem value_decCount (c : CellSt) : (decCount c).value = c.value := rfl

theorem value_incCount (c : CellSt) : (incCount c).value = c.value := rfl

theorem count_putVal (v : Val) (c : CellSt) : (putVal v c).mergeCount = c.mergeCount := rfl

theorem count_relVal (c : CellSt) : (relVal c).mergeCount = c.mergeCount := rfl

theorem liveTo_markReleased (t : Nat) (v : Val) : liveTo t v.markReleased = false := by
  cases v with
  | mergeV m mm r => cases mm <;> simp [Val.markReleased, liveTo]
  | nullV m => rfl
  | numberV m => rfl
  | stringV m => rfl
  | dateV m => rfl
  | hyperV m => rfl
  | formulaV m => rfl

/-- The merge counter stored at cell `t` (0 when out of range). -/
def countAt (s : Sheet) (t : Nat) : Int :=
  match s[t]? with
  | some c => c.mergeCount
  | none => 0

theorem goodP_iff_countAt {s : Sheet} :
    GoodP s ↔ ∀ t, t < s.length → countAt s t = (refCount s t : Int) := by
  constructor
  · intro h t ht
    obtain ⟨c, hc⟩ := getq_eq_some_of_lt ht
    simp [countAt, hc, h t c hc]
  · intro h t c hc
    have h2 := h t (lt_of_getq_eq_some hc)
    simpa [countAt, hc] using h2

theorem countAt_modifyAt_valonly (s : Sheet) (i : Nat) (f : CellSt → CellSt)
    (hf : ∀ c, (f c).mergeCount = c.mergeCount) (t : Nat) :
    countAt (modifyAt s i f) t = countAt s t := by
  by_cases ht : t = i
  · subst ht
    unfold countAt
    rw [getq_modifyAt_self]
    cases hc : s[t]? <;> simp [hf]
  · unfold countAt
    rw [getq_modifyAt_ne s f ht]

theorem countAt_modifyAt_inc (s : Sheet) (j t : Nat) :
    countAt (modifyAt s j incCount) t =
      if t = j ∧ j < s.length then countAt s t + 1 else countAt s t := by
  by_cases ht : t = j
  · subst ht
    unfold countAt
    rw [getq_modifyAt_self]
    cases hc : s[t]? with
    | none =>
      have hn : ¬ t < s.length := by
        intro hlt
        obtain ⟨c, hc2⟩ := getq_eq_some_of_lt hlt
        rw [hc] at hc2
        exact Option.noConfusion hc2
      simp [hn]
    | some c =>
      have hlt : t < s.length := lt_of_getq_eq_some hc
      simp [hlt, incCount]
  · unfold countAt
    rw [getq_modifyAt_ne s incCount ht]
    simp [ht]

theorem countAt_modifyAt_dec (s : Sheet) (j t : Nat) :
    countAt (modifyAt s j decCount) t =
      if t = j ∧ j < s.length then countAt s t - 1 else countAt s t := by
  by_cases ht : t = j
  · subst ht
    unfold countAt
    rw [getq_modifyAt_self]
    cases hc : s[t]? with
    | none =>
      have hn : ¬ t < s.length := by
        intro hlt
        obtain ⟨c, hc2⟩ := getq_eq_some_of_lt hlt
        rw [hc] at hc2
        exact Option.noConfusion hc2
      simp [hn]
    | some c =>
      have hlt : t < s.length := lt_of_getq_eq_some hc
      simp [hlt, decCount]
  · unfold countAt
    rw [getq_modifyAt_ne s decCount ht]
    simp [ht]

theorem refCount_modifyAt_relVal (s : Sheet) (i t : Nat) {c : CellSt} (hc : s[i]? = some c) :
    refCount (modifyAt s i relVal) t + cond (liveMergeTo t c) 1 0 = refCount s t := by
  have h := refCount_modifyAt_value s i relVal t hc
  simpa [liveMergeTo, relVal, liveTo_markReleased] using h

theorem refCount_modifyAt_putVal (s : Sheet) (i t : Nat) (v : Val) {c : CellSt}
    (hc : s[i]? = some c) :
    refCount (modifyAt s i (putVal v)) t + cond (liveMergeTo t c) 1 0 =
      refCount s t + cond (liveTo t v) 1 0 := by
  have h := refCount_modifyAt_value s i (putVal v) t hc
  simpa [liveMergeTo, putVal] using h


/-!  Forward computation lemmas for `releaseVal`. -/

theorem releaseVal_nonmerge {s : Sheet} {i : Nat} {ci : CellSt} (hci : s[i]? = some ci)
    (hnm : ci.value.typeOf ≠ .merge) : releaseVal s i = (s, none) := by
  unfold releaseVal
  rw [hci]
  cases hv : ci.value <;> simp_all [Val.typeOf]

theorem releaseVal_merge {s : Sheet} {i : Nat} {ci ck : CellSt} {m : VModel} {k : Nat}
    {r : Bool} (hci : s[i]? = some ci) (hv : ci.value = .mergeV m (some k) r)
    (hk : s[k]? = some ck) :
    releaseVal s i = (modifyAt (modifyAt s k decCount) i relVal, none) := by
  unfold releaseVal
  rw [hci]
  simp only [hv, hk]

/-- A successful `release()` on cell `i` either had a non-Merge value (and
changed nothing) or a Merge with a live in-range master (and decremented
that master's counter while marking the variant released). -/
theorem releaseVal_success {s s1 : Sheet} {i : Nat} {ci : CellSt} (hci : s[i]? = some ci)
    (h : releaseVal s i = (s1, none)) :
    (ci.value.typeOf ≠ .merge ∧ s1 = s) ∨
      (∃ m k r, ci.value = .mergeV m (some k) r ∧ k < s.length ∧
        s1 = modifyAt (modifyAt s k decCount) i relVal) := by
  cases hv : ci.value with
  | mergeV m mm r =>
    cases mm with
    | none =>
      have hcalc : releaseVal s i = (s, some .typeError) := by
        unfold releaseVal
        rw [hci]
        simp only [hv]
      rw [hcalc] at h
      exact absurd (congrArg Prod.snd h) (by simp)
    | some k =>
      cases hk : s[k]? with
      | none =>
        have hcalc : releaseVal s i = (s, some .typeError) := by
          unfold releaseVal
          rw [hci]
          simp only [hv, hk]
        rw [hcalc] at h
        exact absurd (congrArg Prod.snd h) (by simp)
      | some ck =>
        have hcalc := releaseVal_merge hci hv hk
        rw [hcalc] at h
        exact Or.inr ⟨m, k, r, rfl, lt_of_getq_eq_some hk, (congrArg Prod.fst h).symm⟩
  | nullV m =>
    have hcalc := releaseVal_nonmerge hci (by simp [hv, Val.typeOf])
    rw [hcalc] at h
    exact Or.inl ⟨by simp [hv, Val.typeOf], (congrArg Prod.fst h).symm⟩
  | numberV m =>
    have hcalc := releaseVal_nonmerge hci (by simp [hv, Val.typeOf])
    rw [hcalc] at h
    exact Or.inl ⟨by simp [hv, Val.typeOf], (congrArg Prod.fst h).symm⟩
  | stringV m =>
    have hcalc := releaseVal_nonmerge hci (by simp [hv, Val.typeOf])
    rw [hcalc] at h
    exact Or.inl ⟨by simp [hv, Val.typeOf], (congrArg Prod.fst h).symm⟩
  | dateV m =>
    have hcalc := releaseVal_nonmerge hci (by simp [hv, Val.typeOf])
    rw [hcalc] at h
    exact Or.inl ⟨by simp [hv, Val.typeOf], (congrArg Prod.fst h).symm⟩
  | hyperV m =>
    have hcalc := releaseVal_nonmerge hci (by simp [hv, Val.typeOf])
    rw [hcalc] at h
    exact Or.inl ⟨by simp [hv, Val.typeOf], (congrArg Prod.fst h).symm⟩
  | formulaV m =>
    have hcalc := releaseVal_nonmerge hci (by simp [hv, Val.typeOf])
    rw [hcalc] at h
    exact Or.inl ⟨by simp [hv, Val.typeOf], (congrArg Prod.fst h).symm⟩

theorem liveTo_of_nonmerge {v : Val} (h : v.typeOf ≠ .merge) (t : Nat) : liveTo t v = false := by
  cases v <;> simp_all [Val.typeOf, liveTo]

theorem isLive_of_nonmerge {v : Val} (h : v.typeOf ≠ .merge) : isLive v = true := by
  cases v <;> simp_all [Val.typeOf, isLive]

theorem cond_beq_nat (j t : Nat) : cond (j == t) (1 : Nat) 0 = if t = j then 1 else 0 := by
  by_cases h : t = j
  · subst h
    simp
  · have hb : (j == t) = false := beq_eq_false_iff_ne.2 (fun hc => h hc.symm)
    simp [hb, h]

/-- Transfer of the all-live property along an operation that rewrites the
value at one index to something live and leaves every other value intact. -/
theorem allLiveP_of_chain {s s' : Sheet} (hl : AllLiveP s) (i : Nat)
    (hval : ∀ t c', t ≠ i → s'[t]? = some c' → ∃ c, s[t]? = some c ∧ c'.value = c.value)
    (hvi : ∀ c', s'[i]? = some c' → isLive c'.value = true) : AllLiveP s' := by
  intro t c hc
  by_cases ht : t = i
  · subst ht
    exact hvi c hc
  · obtain ⟨c0, hc0, hval0⟩ := hval t c ht hc
    rw [hval0]
    exact hl t c0 hc0

/-- Shape of a successful `merge`: the current value was released, the
master's counter was incremented, and the cell's value became a live Merge
variant pointing at the master. -/
theorem mergeOp_success_shape {s s' : Sheet} {i j : Nat} (h : mergeOp s i j = (s', none)) :
    ∃ ci s1 cj M, s[i]? = some ci ∧ releaseVal s i = (s1, none) ∧ s1[j]? = some cj ∧
      s' = modifyAt (modifyAt s1 j incCount) i (putVal (.mergeV M (some j) false)) := by
  unfold mergeOp at h
  split at h
  · exact absurd (congrArg Prod.snd h) (by simp)
  · rename_i ci hci
    split at h
    · exact absurd (congrArg Prod.snd h) (by simp)
    · rename_i s1 hrel
      split at h
      · exact absurd (congrArg Prod.snd h) (by simp)
      · rename_i cj hcj
        have h1 := congrArg Prod.fst h
        dsimp only at h1
        exact ⟨ci, s1, cj, _, hci, hrel, hcj, h1.symm⟩

/-- Value-preserving cell updates preserve lookups up to the value. -/
theorem valueAt_preserve (x : Sheet) (j : Nat) (g : CellSt → CellSt)
    (hg : ∀ c, (g c).value = c.value) (i : Nat) {c : CellSt} (hc : x[i]? = some c) :
    ∃ c', (modifyAt x j g)[i]? = some c' ∧ c'.value = c.value := by
  by_cases hij : i = j
  · subst hij
    rw [getq_modifyAt_self, hc]
    exact ⟨g c, rfl, hg c⟩
  · rw [getq_modifyAt_ne _ _ hij]
    exact ⟨c, hc, rfl⟩

/-- A successful `merge` preserves the merge-reference invariant. -/
theorem inv_mergeOp {s s' : Sheet} {i j : Nat} (hl : AllLiveP s) (hg : GoodP s)
    (h : mergeOp s i j = (s', none)) : AllLiveP s' ∧ GoodP s' := by
  obtain ⟨ci, s1, cj, M, hci, hrel, hcj, rfl⟩ := mergeOp_success_shape h
  have hi : i < s.length := lt_of_getq_eq_some hci
  rcases releaseVal_success hci hrel with ⟨hnm, hs1⟩ | ⟨m, k, r, hv, hk, hs1⟩
  · -- the released value was not a Merge: no counter was touched by release
    have hs1x := hs1.symm
    subst hs1x
    have hj : j < s.length := lt_of_getq_eq_some hcj
    constructor
    · refine allLiveP_of_chain hl i ?_ ?_
      · intro t c' ht hc'
        rw [getq_modifyAt_ne _ _ ht] at hc'
        by_cases htj : t = j
        · subst htj
          rw [getq_modifyAt_self] at hc'
          obtain ⟨c0, hc0, hceq⟩ := Option.map_eq_some'.1 hc'
          exact ⟨c0, hc0, by rw [← hceq]; exact value_incCount c0⟩
        · rw [getq_modifyAt_ne _ _ htj] at hc'
          exact ⟨c', hc', rfl⟩
      · intro c' hc'
        rw [getq_modifyAt_self] at hc'
        obtain ⟨c0, hc0, hceq⟩ := Option.map_eq_some'.1 hc'
        rw [← hceq]
        simp [putVal, isLive]
    · rw [goodP_iff_countAt]
      intro t ht
      simp only [length_modifyAt] at ht
      have hcA : countAt (modifyAt (modifyAt s j incCount) i
          (putVal (Val.mergeV M (some j) false))) t = countAt (modifyAt s j incCount) t :=
        countAt_modifyAt_valonly _ i (putVal (Val.mergeV M (some j) false))
          (count_putVal (Val.mergeV M (some j) false)) t
      have hcB := countAt_modifyAt_inc s j t
      obtain ⟨cmid, hmid, hmidv⟩ := valueAt_preserve s j incCount value_incCount i hci
      have h3 := refCount_modifyAt_putVal (modifyAt s j incCount) i t
        (Val.mergeV M (some j) false) hmid
      have hlm : liveMergeTo t cmid = false := by
        rw [liveMergeTo, hmidv]
        exact liveTo_of_nonmerge hnm t
      have h4 : refCount (modifyAt s j incCount) t = refCount s t :=
        refCount_modifyAt_count s j incCount value_incCount t
      have h5 : liveTo t (Val.mergeV M (some j) false) = (j == t) := by simp [liveTo]
      have h7 : countAt s t = (refCount s t : Int) := (goodP_iff_countAt.1 hg) t ht
      rw [hlm, h5, cond_beq_nat, h4] at h3
      simp only [Bool.cond_false, Nat.add_zero] at h3
      rw [hcA, hcB]
      by_cases htj : t = j
      · subst htj
        simp [hj] at h3 ⊢
        omega
      · simp [htj] at h3 ⊢
        omega
  · -- the released value was a Merge with live master k
    subst hs1
    have hr : r = false := by
      have h0 := hl i ci hci
      rw [hv] at h0
      simpa [isLive] using h0
    subst hr
    have hlen1 : (modifyAt (modifyAt s k decCount) i relVal).length = s.length := by
      simp [length_modifyAt]
    have hj : j < s.length := by
      have hx := lt_of_getq_eq_some hcj
      rwa [hlen1] at hx
    obtain ⟨cski, hcski, hskiv⟩ := valueAt_preserve s k decCount value_decCount i hci
    have hs1i : (modifyAt (modifyAt s k decCount) i relVal)[i]? = some (relVal cski) := by
      rw [getq_modifyAt_self, hcski]
      rfl
    constructor
    · refine allLiveP_of_chain hl i ?_ ?_
      · intro t c' ht hc'
        rw [getq_modifyAt_ne _ _ ht] at hc'
        by_cases htj : t = j
        · subst htj
          rw [getq_modifyAt_self] at hc'
          obtain ⟨c1, hc1, hceq⟩ := Option.map_eq_some'.1 hc'
          rw [getq_modifyAt_ne _ _ ht] at hc1
          by_cases htk : t = k
          · subst htk
            rw [getq_modifyAt_self] at hc1
            obtain ⟨c2, hc2, hceq2⟩ := Option.map_eq_some'.1 hc1
            exact ⟨c2, hc2, by rw [← hceq, ← hceq2]; rfl⟩
          · rw [getq_modifyAt_ne _ _ htk] at hc1
            exact ⟨c1, hc1, by rw [← hceq]; exact value_incCount c1⟩
        · rw [getq_modifyAt_ne _ _ htj] at hc'
          rw [getq_modifyAt_ne _ _ ht] at hc'
          by_cases htk : t = k
          · subst htk
            rw [getq_modifyAt_self] at hc'
            obtain ⟨c2, hc2, hceq2⟩ := Option.map_eq_some'.1 hc'
            exact ⟨c2, hc2, by rw [← hceq2]; rfl⟩
          · rw [getq_modifyAt_ne _ _ htk] at hc'
            exact ⟨c', hc', rfl⟩
      · intro c' hc'
        rw [getq_modifyAt_self] at hc'
        obtain ⟨c0, hc0, hceq⟩ := Option.map_eq_some'.1 hc'
        rw [← hceq]
        simp [putVal, isLive]
    · rw [goodP_iff_countAt]
      intro t ht
      simp only [length_modifyAt] at ht
      have hcA : countAt (modifyAt (modifyAt (modifyAt (modifyAt s k decCount) i relVal) j
          incCount) i (putVal (Val.mergeV M (some j) false))) t =
          countAt (modifyAt (modifyAt (modifyAt s k decCount) i relVal) j incCount) t :=
        countAt_modifyAt_valonly _ i (putVal (Val.mergeV M (some j) false))
          (count_putVal (Val.mergeV M (some j) false)) t
      have hcB := countAt_modifyAt_inc (modifyAt (modifyAt s k decCount) i relVal) j t
      have hcC : countAt (modifyAt (modifyAt s k decCount) i relVal) t =
          countAt (modifyAt s k decCount) t :=
        countAt_modifyAt_valonly _ i relVal count_relVal t
      have hcD := countAt_modifyAt_dec s k t
      obtain ⟨cmid, hmid, hmidv⟩ :=
        valueAt_preserve (modifyAt (modifyAt s k decCount) i relVal) j incCount
          value_incCount i hs1i
      have h3 := refCount_modifyAt_putVal
        (modifyAt (modifyAt (modifyAt s k decCount) i relVal) j incCount) i t
        (Val.mergeV M (some j) false) hmid
      have hlm : liveMergeTo t cmid = false := by
        rw [liveMergeTo, hmidv]
        exact liveTo_markReleased t cski.value
      have h4 : refCount (modifyAt (modifyAt (modifyAt s k decCount) i relVal) j incCount) t =
          refCount (modifyAt (modifyAt s k decCount) i relVal) t :=
        refCount_modifyAt_count _ j incCount value_incCount t
      have h5 := refCount_modifyAt_relVal (modifyAt s k decCount) i t hcski
      have hlm2 : liveMergeTo t cski = (k == t) := by
        rw [liveMergeTo, hskiv, hv]
        simp [liveTo]
      have h6 : refCount (modifyAt s k decCount) t = refCount s t :=
        refCount_modifyAt_count s k decCount value_decCount t
      have h7 : countAt s t = (refCount s t : Int) := (goodP_iff_countAt.1 hg) t ht
      have h8 : liveTo t (Val.mergeV M (some j) false) = (j == t) := by simp [liveTo]
      rw [hlm, h8, cond_beq_nat, h4] at h3
      simp only [Bool.cond_false, Nat.add_zero] at h3
      rw [hlm2, cond_beq_nat, h6] at h5
      rw [hcA, hcB, hcC, hcD, hlen1]
      by_cases htj : t = j
      · subst htj
        by_cases htk : t = k
        · subst htk
          simp [hj, hk] at h3 h5 ⊢
          omega
        · simp [hj, htk] at h3 h5 ⊢
          omega
      · by_cases htk : t = k
        · subst htk
          simp [htj, hk] at h3 h5 ⊢
          omega
        · simp [htj, htk] at h3 h5 ⊢
          omega

theorem withModel_not_live (t : VType) (a : String) (v : JSVal) (m : VModel) :
    isLive ((Value.createPlain t a v).withModel m) = true ∧
      ∀ x, liveTo x ((Value.createPlain t a v).withModel m) = false := by
  cases t <;> simp [Value.createPlain, Val.withModel, isLive, liveTo]

/-- A release followed by installing a count-preserving, never-live value at
the same cell preserves the merge-reference invariant. -/
theorem inv_release_replace {s s1 s' : Sheet} {i : Nat} {ci : CellSt}
    (hl : AllLiveP s) (hg : GoodP s)
    (hci : s[i]? = some ci)
    (hrel : releaseVal s i = (s1, none))
    (f : CellSt → CellSt)
    (hfcount : ∀ c, (f c).mergeCount = c.mergeCount)
    (hflive : ∀ c, isLive (f c).value = true)
    (hfdead : ∀ c x, liveTo x (f c).value = false)
    (hs' : s' = modifyAt s1 i f) :
    AllLiveP s' ∧ GoodP s' := by
  subst hs'
  rcases releaseVal_success hci hrel with ⟨hnm, hs1⟩ | ⟨m, k, r, hv, hk, hs1⟩
  · have hs1x := hs1.symm
    subst hs1x
    constructor
    · refine allLiveP_of_chain hl i ?_ ?_
      · intro t c' ht hc'
        rw [getq_modifyAt_ne _ _ ht] at hc'
        exact ⟨c', hc', rfl⟩
      · intro c' hc'
        rw [getq_modifyAt_self] at hc'
        obtain ⟨c0, hc0, hceq⟩ := Option.map_eq_some'.1 hc'
        rw [← hceq]
        exact hflive c0
    · rw [goodP_iff_countAt]
      intro t ht
      simp only [length_modifyAt] at ht
      have hcA : countAt (modifyAt s i f) t = countAt s t :=
        countAt_modifyAt_valonly s i f hfcount t
      have h3 := refCount_modifyAt_value s i f t hci
      have hlm : liveMergeTo t ci = false := by
        rw [liveMergeTo]
        exact liveTo_of_nonmerge hnm t
      have hlm2 : liveMergeTo t (f ci) = false := by
        rw [liveMergeTo]
        exact hfdead ci t
      rw [hlm, hlm2] at h3
      simp only [Bool.cond_false, Nat.add_zero] at h3
      have h7 : countAt s t = (refCount s t : Int) := (goodP_iff_countAt.1 hg) t ht
      rw [hcA, h7, h3]
  · subst hs1
    have hi : i < s.length := lt_of_getq_eq_some hci
    have hr : r = false := by
      have h0 := hl i ci hci
      rw [hv] at h0
      simpa [isLive] using h0
    subst hr
    obtain ⟨cski, hcski, hskiv⟩ := valueAt_preserve s k decCount value_decCount i hci
    have hs1i : (modifyAt (modifyAt s k decCount) i relVal)[i]? = some (relVal cski) := by
      rw [getq_modifyAt_self, hcski]
      rfl
    constructor
    · refine allLiveP_of_chain hl i ?_ ?_
      · intro t c' ht hc'
        rw [getq_modifyAt_ne _ _ ht] at hc'
        rw [getq_modifyAt_ne _ _ ht] at hc'
        by_cases htk : t = k
        · subst htk
          rw [getq_modifyAt_self] at hc'
          obtain ⟨c2, hc2, hceq2⟩ := Option.map_eq_some'.1 hc'
          exact ⟨c2, hc2, by rw [← hceq2]; exact value_decCount c2⟩
        · rw [getq_modifyAt_ne _ _ htk] at hc'
          exact ⟨c', hc', rfl⟩
      · intro c' hc'
        rw [getq_modifyAt_self] at hc'
        obtain ⟨c0, hc0, hceq⟩ := Option.map_eq_some'.1 hc'
        rw [← hceq]
        exact hflive c0
    · rw [goodP_iff_countAt]
      intro t ht
      simp only [length_modifyAt] at ht
      have hcA : countAt (modifyAt (modifyAt (modifyAt s k decCount) i relVal) i f) t =
          countAt (modifyAt (modifyAt s k decCount) i relVal) t :=
        countAt_modifyAt_valonly _ i f hfcount t
      have hcC : countAt (modifyAt (modifyAt s k decCount) i relVal) t =
          countAt (modifyAt s k decCount) t :=
        countAt_modifyAt_valonly _ i relVal count_relVal t
      have hcD := countAt_modifyAt_dec s k t
      have h3 := refCount_modifyAt_value (modifyAt (modifyAt s k decCount) i relVal) i f t hs1i
      have hlm : liveMergeTo t (relVal cski) = false := by
        rw [liveMergeTo]
        exact liveTo_markReleased t cski.value
      have hlm2 : liveMergeTo t (f (relVal cski)) = false := by
        rw [liveMergeTo]
        exact hfdead (relVal cski) t
      rw [hlm, hlm2] at h3
      simp only [Bool.cond_false, Nat.add_zero] at h3
      have h5 := refCount_modifyAt_relVal (modifyAt s k decCount) i t hcski
      have hlm3 : liveMergeTo t cski = (k == t) := by
        rw [liveMergeTo, hskiv, hv]
        simp [liveTo]
      have h6 : refCount (modifyAt s k decCount) t = refCount s t :=
        refCount_modifyAt_count s k decCount value_decCount t
      have h7 : countAt s t = (refCount s t : Int) := (goodP_iff_countAt.1 hg) t ht
      rw [hlm3, cond_beq_nat, h6] at h5
      rw [hcA, hcC, hcD]
      by_cases htk : t = k
      · subst htk
        simp [hk] at h5 ⊢
        omega
      · simp [htk] at h5 ⊢
        omega

/-- Shape of a successful `unmerge`. -/
theorem unmergeOp_success_shape {s s' : Sheet} {i : Nat} (h : unmergeOp s i = (s', none)) :
    s' = s ∨ ∃ ci s1, s[i]? = some ci ∧ releaseVal s i = (s1, none) ∧
      s' = modifyAt s1 i (fun c => putVal (Value.createPlain .null c.address .vUndef) c) := by
  unfold unmergeOp at h
  split at h
  · exact absurd (congrArg Prod.snd h) (by simp)
  · rename_i ci hci
    split at h
    · split at h
      · exact absurd (congrArg Prod.snd h) (by simp)
      · rename_i s1 hrel
        exact Or.inr ⟨ci, s1, hci, hrel, (congrArg Prod.fst h).symm⟩
    · exact Or.inl (congrArg Prod.fst h).symm

/-- A successful `unmerge` preserves the merge-reference invariant. -/
theorem inv_unmergeOp {s s' : Sheet} {i : Nat} (hl : AllLiveP s) (hg : GoodP s)
    (h : unmergeOp s i = (s', none)) : AllLiveP s' ∧ GoodP s' := by
  rcases unmergeOp_success_shape h with rfl | ⟨ci, s1, hci, hrel, hs'⟩
  · exact ⟨hl, hg⟩
  · refine inv_release_replace hl hg hci hrel
      (fun c => putVal (Value.createPlain .null c.address .vUndef) c) (fun c => rfl) ?_ ?_ hs'
    · intro c
      simpa [putVal] using (createPlain_live .null c.address .vUndef).1
    · intro c x
      simpa [putVal] using (createPlain_live .null c.address .vUndef).2 x

/-- Shape of a successful model import. -/
theorem setModelOp_success_shape {s s' : Sheet} {i : Nat} {m : VModel}
    (h : setModelOp s i m = (s', none)) :
    ∃ ci s1 t, s[i]? = some ci ∧ releaseVal s i = (s1, none) ∧ m.mtype = some t ∧
      s' = modifyAt s1 i (fun c =>
        { c with value := (Value.createPlain t c.address .vUndef).withModel m,
                 style := if truthy m.style then m.style else emptyStyle }) := by
  unfold setModelOp at h
  split at h
  · exact absurd (congrArg Prod.snd h) (by simp)
  · rename_i ci hci
    split at h
    · exact absurd (congrArg Prod.snd h) (by simp)
    · rename_i s1 hrel
      split at h
      · exact absurd (congrArg Prod.snd h) (by simp)
      · rename_i t hmt
        exact ⟨ci, s1, t, hci, hrel, hmt, (congrArg Prod.fst h).symm⟩

/-- A successful model import preserves the merge-reference invariant. -/
theorem inv_setModelOp {s s' : Sheet} {i : Nat} {m : VModel} (hl : AllLiveP s) (hg : GoodP s)
    (h : setModelOp s i m = (s', none)) : AllLiveP s' ∧ GoodP s' := by
  obtain ⟨ci, s1, t, hci, hrel, hmt, hs'⟩ := setModelOp_success_shape h
  refine inv_release_replace hl hg hci hrel
    (fun c => { c with value := (Value.createPlain t c.address .vUndef).withModel m,
                       style := if truthy m.style then m.style else emptyStyle })
    (fun c => rfl) ?_ ?_ hs'
  · intro c
    exact (withModel_not_live t c.address .vUndef m).1
  · intro c x
    exact (withModel_not_live t c.address .vUndef m).2 x

/-- A successful value assignment (any fuel) preserves the merge-reference
invariant: forwarding mutates nothing, and the final write replaces a
non-Merge value by a non-Merge value without touching any counter. -/
theorem inv_setValueF {v : JSVal} :
    ∀ {f : Nat} {s s' : Sheet} {i : Nat}, AllLiveP s → GoodP s →
      setValueF f s i v = (s', none) → AllLiveP s' ∧ GoodP s' := by
  intro f
  induction f with
  | zero =>
    intro s s' i hl hg h
    exact absurd (congrArg Prod.snd h) (by simp [setValueF])
  | succ f ih =>
    intro s s' i hl hg h
    unfold setValueF at h
    split at h
    · exact absurd (congrArg Prod.snd h) (by simp)
    · rename_i c hci
      split at h
      · split at h
        · exact absurd (congrArg Prod.snd h) (by simp)
        · exact ih hl hg h
      · rename_i hnot
        split at h
        · exact absurd (congrArg Prod.snd h) (by simp)
        · rename_i t hty
          have hnm : c.value.typeOf ≠ .merge := by
            cases hv : c.value <;> simp [Val.typeOf]
            exact hnot _ _ _ hv
          refine inv_release_replace hl hg hci (releaseVal_nonmerge hci hnm)
            (fun ci => putVal (Value.createPlain t ci.address v) ci) (fun ci => rfl) ?_ ?_
            (congrArg Prod.fst h).symm
          · intro ci
            simpa [putVal] using (createPlain_live t ci.address v).1
          · intro ci x
            simpa [putVal] using (createPlain_live t ci.address v).2 x

/-- Shape of a successful Merge re-target. -/
theorem retargetOp_success_shape {s s' : Sheet} {i j : Nat}
    (h : retargetOp s i j = (s', none)) :
    ∃ ci m mm r, s[i]? = some ci ∧ ci.value = .mergeV m mm r ∧
      s' = modifyAt (modifyAt
        (match mm with
         | some k => modifyAt s k decCount
         | none => s) j incCount) i (putVal (.mergeV m (some j) r)) := by
  unfold retargetOp at h
  split at h
  · exact absurd (congrArg Prod.snd h) (by simp)
  · rename_i ci hci
    split at h
    · rename_i m mm r hv
      have h1 := congrArg Prod.fst h
      dsimp only at h1
      exact ⟨ci, m, mm, r, hci, hv, h1.symm⟩
    · exact absurd (congrArg Prod.snd h) (by simp)

/-- A successful Merge re-target preserves the merge-reference invariant:
it moves exactly one live reference from the old master to the new one. -/
theorem inv_retargetOp {s s' : Sheet} {i j : Nat} (hl : AllLiveP s) (hg : GoodP s)
    (h : retargetOp s i j = (s', none)) : AllLiveP s' ∧ GoodP s' := by
  obtain ⟨ci, m, mm, r, hci, hv, hs'⟩ := retargetOp_success_shape h
  have hi : i < s.length := lt_of_getq_eq_some hci
  have hr : r = false := by
    have h0 := hl i ci hci
    rw [hv] at h0
    simpa [isLive] using h0
  subst hr
  cases mm with
  | none =>
    subst hs'
    constructor
    · refine allLiveP_of_chain hl i ?_ ?_
      · intro t c' ht hc'
        rw [getq_modifyAt_ne _ _ ht] at hc'
        by_cases htj : t = j
        · subst htj
          rw [getq_modifyAt_self] at hc'
          obtain ⟨c0, hc0, hceq⟩ := Option.map_eq_some'.1 hc'
          exact ⟨c0, hc0, by rw [← hceq]; exact value_incCount c0⟩
        · rw [getq_modifyAt_ne _ _ htj] at hc'
          exact ⟨c', hc', rfl⟩
      · intro c' hc'
        rw [getq_modifyAt_self] at hc'
        obtain ⟨c0, hc0, hceq⟩ := Option.map_eq_some'.1 hc'
        rw [← hceq]
        simp [putVal, isLive]
    · rw [goodP_iff_countAt]
      intro t ht
      simp only [length_modifyAt] at ht
      have hcA : countAt (modifyAt (modifyAt s j incCount) i
          (putVal (Val.mergeV m (some j) false))) t = countAt (modifyAt s j incCount) t :=
        countAt_modifyAt_valonly _ i (putVal (Val.mergeV m (some j) false))
          (count_putVal (Val.mergeV m (some j) false)) t
      have hcB := countAt_modifyAt_inc s j t
      obtain ⟨cmid, hmid, hmidv⟩ := valueAt_preserve s j incCount value_incCount i hci
      have h3 := refCount_modifyAt_putVal (modifyAt s j incCount) i t
        (Val.mergeV m (some j) false) hmid
      have hlm : liveMergeTo t cmid = false := by
        rw [liveMergeTo, hmidv, hv]
        simp [liveTo]
      have h4 : refCount (modifyAt s j incCount) t = refCount s t :=
        refCount_modifyAt_count s j incCount value_incCount t
      have h5 : liveTo t (Val.mergeV m (some j) false) = (j == t) := by simp [liveTo]
      have h7 : countAt s t = (refCount s t : Int) := (goodP_iff_countAt.1 hg) t ht
      rw [hlm, h5, cond_beq_nat, h4] at h3
      simp only [Bool.cond_false, Nat.add_zero] at h3
      rw [hcA, hcB]
      by_cases htj : t = j
      · subst htj
        simp [ht] at h3 ⊢
        omega
      · simp [htj] at h3 ⊢
        omega
  | some k =>
    subst hs'
    constructor
    · refine allLiveP_of_chain hl i ?_ ?_
      · intro t c' ht hc'
        rw [getq_modifyAt_ne _ _ ht] at hc'
        by_cases htj : t = j
        · subst htj
          rw [getq_modifyAt_self] at hc'
          obtain ⟨c1, hc1, hceq⟩ := Option.map_eq_some'.1 hc'
          by_cases htk : t = k
          · subst htk
            rw [getq_modifyAt_self] at hc1
            obtain ⟨c2, hc2, hceq2⟩ := Option.map_eq_some'.1 hc1
            exact ⟨c2, hc2, by rw [← hceq, ← hceq2]; rfl⟩
          · rw [getq_modifyAt_ne _ _ htk] at hc1
            exact ⟨c1, hc1, by rw [← hceq]; exact value_incCount c1⟩
        · rw [getq_modifyAt_ne _ _ htj] at hc'
          by_cases htk : t = k
          · subst htk
            rw [getq_modifyAt_self] at hc'
            obtain ⟨c2, hc2, hceq2⟩ := Option.map_eq_some'.1 hc'
            exact ⟨c2, hc2, by rw [← hceq2]; exact value_decCount c2⟩
          · rw [getq_modifyAt_ne _ _ htk] at hc'
            exact ⟨c', hc', rfl⟩
      · intro c' hc'
        rw [getq_modifyAt_self] at hc'
        obtain ⟨c0, hc0, hceq⟩ := Option.map_eq_some'.1 hc'
        rw [← hceq]
        simp [putVal, isLive]
    · rw [goodP_iff_countAt]
      intro t ht
      simp only [length_modifyAt] at ht
      have hcA : countAt (modifyAt (modifyAt (modifyAt s k decCount) j incCount) i
          (putVal (Val.mergeV m (some j) false))) t =
          countAt (modifyAt (modifyAt s k decCount) j incCount) t :=
        countAt_modifyAt_valonly _ i (putVal (Val.mergeV m (some j) false))
          (count_putVal (Val.mergeV m (some j) false)) t
      have hcB := countAt_modifyAt_inc (modifyAt s k decCount) j t
      have hcD := countAt_modifyAt_dec s k t
      obtain ⟨cski, hcski, hskiv⟩ := valueAt_preserve s k decCount value_decCount i hci
      obtain ⟨cmid, hmid, hmidv⟩ :=
        valueAt_preserve (modifyAt s k decCount) j incCount value_incCount i hcski
      have h3 := refCount_modifyAt_putVal (modifyAt (modifyAt s k decCount) j incCount) i t
        (Val.mergeV m (some j) false) hmid
      have hlm : liveMergeTo t cmid = (k == t) := by
        rw [liveMergeTo, hmidv, hskiv, hv]
        simp [liveTo]
      have h4 : refCount (modifyAt (modifyAt s k decCount) j incCount) t =
          refCount (modifyAt s k decCount) t :=
        refCount_modifyAt_count _ j incCount value_incCount t
      have h6 : refCount (modifyAt s k decCount) t = refCount s t :=
        refCount_modifyAt_count s k decCount value_decCount t
      have h5 : liveTo t (Val.mergeV m (some j) false) = (j == t) := by simp [liveTo]
      have h7 : countAt s t = (refCount s t : Int) := (goodP_iff_countAt.1 hg) t ht
      rw [hlm, h5, cond_beq_nat, cond_beq_nat, h4, h6] at h3
      rw [hcA, hcB, hcD]
      simp only [length_modifyAt]
      by_cases htj : t = j
      · subst htj
        by_cases htk : t = k
        · subst htk
          simp [ht] at h3 ⊢
          omega
        · simp [ht, htk] at h3 ⊢
          omega
      · by_cases htk : t = k
        · subst htk
          simp [ht, htj] at h3 ⊢
          omega
        · simp [htj, htk] at h3 ⊢
          omega

/-- Freshly constructed cells satisfy the merge-reference invariant. -/
theorem inv_initSheet (ps : List (JSVal × String)) :
    AllLiveP (initSheet ps) ∧ GoodP (initSheet ps) := by
  constructor
  · intro t c hc
    rw [initSheet, List.getElem?_map] at hc
    obtain ⟨p, hp, hceq⟩ := Option.map_eq_some'.1 hc
    rw [← hceq]
    simp [freshCell, Value.createPlain, isLive]
  · intro t c hc
    rw [initSheet, List.getElem?_map] at hc
    obtain ⟨p, hp, hceq⟩ := Option.map_eq_some'.1 hc
    have hcount : c.mergeCount = 0 := by
      rw [← hceq]
      rfl
    have hrc : refCount (initSheet ps) t = 0 := by
      rw [refCount]
      refine List.countP_eq_zero.2 ?_
      intro c' hc'
      rw [initSheet] at hc'
      obtain ⟨p', hp', hpc⟩ := List.mem_map.1 hc'
      rw [← hpc]
      simp [liveMergeTo, freshCell, Value.createPlain, liveTo]
    rw [hcount, hrc]
    rfl

/-- Every sheet reachable by successfully completing public operations
keeps every value live and every cell's counter equal to the number of live
Merge variants pointing at it. -/
theorem inv_reachable {s : Sheet} (h : Reachable s) : AllLiveP s ∧ GoodP s := by
  induction h with
  | init ps => exact inv_initSheet ps
  | step hr hstep ih =>
    obtain ⟨hl, hg⟩ := ih
    cases hstep with
    | mergeS i j h => exact inv_mergeOp hl hg h
    | unmergeS i h => exact inv_unmergeOp hl hg h
    | setValS f i v h => exact inv_setValueF hl hg h
    | retargetS i j h => exact inv_retargetOp hl hg h
    | setModelS i m h => exact inv_setModelOp hl hg h

/-- C6: `Value.getType` classifies a raw payload in the source's priority
order: null/undefined are Null; strings are String; numbers are Number;
`Date` objects are Date; an object with truthy `text` and `hyperlink` is a
Hyperlink (winning over `formula`); otherwise an object with a truthy
`formula` is a Formula; and any other shape - booleans included - raises
the `unrecognizedType` error.  `getType` never returns Merge, and an object
whose `text` is the empty string is not a Hyperlink. -/
theorem getType_classification :
    (Value.getType .vNull = .ok .null) ∧
    (Value.getType .vUndef = .ok .null) ∧
    (∀ s, Value.getType (.vStr s) = .ok .string) ∧
    (∀ n, Value.getType (.vNum n) = .ok .number) ∧
    (∀ d, Value.getType (.vDate d) = .ok .date) ∧
    (∀ t h f r, truthy t = true → truthy h = true →
      Value.getType (.vObj t h f r) = .ok .hyperlink) ∧
    (∀ t h f r, (truthy t = true ∧ truthy h = true → False) → truthy f = true →
      Value.getType (.vObj t h f r) = .ok .formula) ∧
    (∀ t h f r, (truthy t = true ∧ truthy h = true → False) → truthy f = false →
      Value.getType (.vObj t h f r) = .error .unrecognizedType) ∧
    (∀ b, Value.getType (.vBool b) = .error .unrecognizedType) ∧
    (∀ v tv, Value.getType v = .ok tv → tv ≠ .merge) ∧
    (Value.getType (.vObj (.vStr "") (.vStr "b") .vUndef .vUndef) =
      .error .unrecognizedType) := by
  refine ⟨rfl, rfl, fun s => rfl, fun n => rfl, fun d => rfl, ?_, ?_, ?_, fun b => rfl, ?_,
    by decide⟩
  · intro t h f r ht hh
    simp [Value.getType, ht, hh]
  · intro t h f r hth hf
    have hand : (truthy t && truthy h) = false := by
      cases ht : truthy t <;> cases hh : truthy h <;> simp_all
    simp [Value.getType, hand, hf]
  · intro t h f r hth hf
    have hand : (truthy t && truthy h) = false := by
      cases ht : truthy t <;> cases hh : truthy h <;> simp_all
    simp [Value.getType, hand, hf]
  · exact fun v tv h => getType_ne_merge h

/-- C6 witness: the Hyperlink clause applied at a concrete payload. -/
theorem getType_classification_witness :
    Value.getType (.vObj (.vStr "a") (.vStr "b") .vUndef .vUndef) = .ok .hyperlink :=
  getType_classification.2.2.2.2.2.1 (.vStr "a") (.vStr "b") .vUndef .vUndef
    (by decide) (by decide)

/-- C7 counterexample: a Formula cell whose cached result is the number 0 -
a present result - still renders as the empty string, because the source
uses the truthiness test `this.model.result || ""`; so "the empty string
only when the result is absent" is false. -/
theorem toCsv_formula_falsy_result_counterexample :
    (setValueF 1 (initSheet [(.vBool true, "A1")]) 0
      (.vObj .vUndef .vUndef (.vStr "B1+1") (.vNum 0))).2 = none ∧
    ((setValueF 1 (initSheet [(.vBool true, "A1")]) 0
      (.vObj .vUndef .vUndef (.vStr "B1+1") (.vNum 0))).1[0]?).map
        (fun c => c.value.modelOf.result) = some (.vNum 0) ∧
    cellToCsvString
      ((setValueF 1 (initSheet [(.vBool true, "A1")]) 0
        (.vObj .vUndef .vUndef (.vStr "B1+1") (.vNum 0))).1) 0 = .ok (.vStr "") ∧
    jsToString (.vNum 0) = "0" ∧ ("0" : String) ≠ "" := by decide

/-- C7 (amended): `toCsvString` renders Null as the empty string, Number by
string coercion of its payload (42 renders as "42"), String double-quoted
with embedded double quotes doubled, Date via the external ISO-8601
rendering of its instant, Hyperlink as the raw hyperlink target only (never
the text), Merge as the empty string, and Formula as the string coercion of
the cached result when the result is truthy and as the empty string when
the result is falsy - absent, null, 0, the empty string or false - not
merely when it is absent. -/
theorem toCsvString_rendering :
    (∀ m, (Val.nullV m).toCsvString = .ok (.vStr "")) ∧
    (∀ m, (Val.numberV m).toCsvString = .ok (.vStr (jsToString m.value))) ∧
    (∀ m str, m.value = .vStr str → (Val.stringV m).toCsvString =
      .ok (.vStr (csvQuote str))) ∧
    (∀ m d, m.value = .vDate d →
      (Val.dateV m).toCsvString = .ok (.vStr (dateToISOString d))) ∧
    (∀ m, (Val.hyperV m).toCsvString = .ok m.hyperlink) ∧
    (∀ m mm r, (Val.mergeV m mm r).toCsvString = .ok (.vStr "")) ∧
    (∀ m, truthy m.result = true →
      (Val.formulaV m).toCsvString = .ok (.vStr (jsToString m.result))) ∧
    (∀ m, truthy m.result = false → (Val.formulaV m).toCsvString = .ok (.vStr "")) ∧
    (∀ s i c, s[i]? = some c → cellToCsvString s i = c.value.toCsvString) ∧
    (Val.numberV { freshVModel "A1" with mtype := some VType.number, value := JSVal.vNum 42 }).toCsvString = .ok (.vStr "42") ∧
    (Val.stringV { freshVModel "A1" with mtype := some VType.string, value := JSVal.vStr "He said \"hi\"" }).toCsvString = .ok (.vStr "\"He said \"\"hi\"\"\"") ∧
    (Val.hyperV { freshVModel "A1" with mtype := some VType.hyperlink, text := JSVal.vStr "x", hyperlink := JSVal.vStr "http://y" }).toCsvString = .ok (.vStr "http://y") := by
  refine ⟨fun m => rfl, fun m => rfl, ?_, ?_, fun m => rfl, fun m mm r => rfl, ?_, ?_, ?_,
    by decide, by decide, by decide⟩
  · intro m str hm
    simp [Val.toCsvString, hm]
  · intro m d hm
    simp [Val.toCsvString, hm]
  · intro m hm
    simp [Val.toCsvString, hm]
  · intro m hm
    simp [Val.toCsvString, hm]
  · intro s i c hc
    simp [cellToCsvString, hc]

/-- C7 witness: the truthy-result Formula clause at a concrete model. -/
theorem toCsvString_rendering_witness :
    (Val.formulaV { freshVModel "A1" with mtype := some VType.formula, formula := JSVal.vStr "B1", result := JSVal.vNum 7 }).toCsvString = .ok (.vStr (jsToString (.vNum 7))) :=
  toCsvString_rendering.2.2.2.2.2.2.1 _ (by decide)

/-- C9 (code evaluation at the failing input): a cell constructed with a
truthy owning Row object and address "C7" returns that Row object from the
`row` getter - not the numeric coordinate 7 that the dead lazy-parse branch
would compute from the address - while the `col` getter does derive 3 from
the letter prefix on first access, caches it, and serves the cache
unchanged on the second access. -/
theorem row_getter_code_bug :
    mkCell (.vObj .vUndef .vUndef .vUndef .vUndef) "C7" =
      .ok (freshCell (.vObj .vUndef .vUndef .vUndef .vUndef) "C7") ∧
    (rowGet (freshCell (.vObj .vUndef .vUndef .vUndef .vUndef) "C7")).1 =
      .vObj .vUndef .vUndef .vUndef .vUndef ∧
    (JSVal.vObj .vUndef .vUndef .vUndef .vUndef) ≠ .vNum 7 ∧
    firstDigitsRun "C7" = 7 ∧
    (colGet (freshCell (.vObj .vUndef .vUndef .vUndef .vUndef) "C7")).1 = 3 ∧
    ((colGet (freshCell (.vObj .vUndef .vUndef .vUndef .vUndef) "C7")).2).colCache = some 3 ∧
    colGet ((colGet (freshCell (.vObj .vUndef .vUndef .vUndef .vUndef) "C7")).2) =
      (3, (colGet (freshCell (.vObj .vUndef .vUndef .vUndef .vUndef) "C7")).2) := by
  decide

/-- C10: the heap-explicit `model` getter returns the active value's model
record itself (the same reference, not a copy); it mutates that record by
attaching a reference to the cell's current style object, so after any read
the stored snapshot permanently carries a `style` key shared with the
cell's own style object; the data fields are untouched; and updating the
heap through the returned reference updates exactly what the cell's value
reads back - mutating the returned snapshot mutates the cell's state. -/
theorem model_getter_aliasing :
    ∀ (c : HCell) (σ : HModelStore),
      (hGetModel c σ).1 = c.modelRef ∧
      ((hGetModel c σ).2 c.modelRef).styleRef = some c.styleRef ∧
      ((hGetModel c σ).2 c.modelRef).core = (σ c.modelRef).core ∧
      (∀ m' : HModel,
        Function.update (hGetModel c σ).2 (hGetModel c σ).1 m' c.modelRef = m') := by
  intro c σ
  refine ⟨rfl, ?_, ?_, ?_⟩
  · simp [hGetModel]
  · simp [hGetModel]
  · intro m'
    simp [hGetModel]

/-!  Structural facts about the dependency matchers: every match is a
nonempty prefix split of its input, so the global scan removes exactly the
matched range text before the cell pass runs. -/

theorem append_take_drop_mid (a : List Char) (n : Nat) (d r : List Char) :
    (a ++ d.take n) ++ (d.drop n ++ r) = a ++ (d ++ r) := by
  rw [List.append_assoc, ← List.append_assoc (d.take n), List.take_append_drop]

theorem tryPfx_split {s p rest : List Char} (h : tryPfx s = some (p, rest)) :
    p ++ rest = s ∧ 1 ≤ p.length := by
  unfold tryPfx at h
  split at h
  · exact Option.noConfusion h
  · exact Option.noConfusion h
  · rename_i c cs d rest2 htake hdrop
    split at h
    · rename_i hd
      obtain ⟨rfl, rfl⟩ := Prod.mk.injEq .. ▸ Option.some.inj h
      constructor
      · rw [List.append_assoc, List.singleton_append, ← hdrop, ← htake,
          List.takeWhile_append_dropWhile]
      · simp
    · exact Option.noConfusion h

theorem cellCore_split {s m r : List Char} (h : cellCore s = some (m, r)) :
    m ++ r = s ∧ 1 ≤ m.length := by
  unfold cellCore at h
  dsimp only at h
  split at h
  · rename_i hc1
    split at h
    · rename_i hc2
      obtain ⟨rfl, rfl⟩ := Prod.mk.injEq .. ▸ Option.some.inj h
      constructor
      · rw [append_take_drop_mid, List.takeWhile_append_dropWhile,
          List.takeWhile_append_dropWhile]
      · simp only [Bool.and_eq_true, decide_eq_true_eq] at hc1
        simp only [List.length_append]
        omega
    · exact Option.noConfusion h
  · exact Option.noConfusion h

theorem rangeCore_split {s m r : List Char} (h : rangeCore s = some (m, r)) :
    m ++ r = s ∧ 1 ≤ m.length := by
  unfold rangeCore at h
  dsimp only at h
  split at h
  · rename_i hc1
    split at h
    · rename_i hc2
      split at h
      · exact Option.noConfusion h
      · rename_i c r3 heq
        split at h
        · rename_i hcolon
          split at h
          · rename_i hc3
            split at h
            · rename_i hc4
              obtain ⟨rfl, rfl⟩ := Prod.mk.injEq .. ▸ Option.some.inj h
              constructor
              · rw [List.append_assoc, List.append_assoc, List.append_assoc,
                  List.singleton_append,
                  ← List.append_assoc (((r3.dropWhile isUpper).takeWhile isDigitCh).take 4)
                    (((r3.dropWhile isUpper).takeWhile isDigitCh).drop 4)
                    ((r3.dropWhile isUpper).dropWhile isDigitCh),
                  List.take_append_drop, List.takeWhile_append_dropWhile,
                  List.takeWhile_append_dropWhile, ← heq, List.append_assoc,
                  List.takeWhile_append_dropWhile, List.takeWhile_append_dropWhile]
              · simp only [Bool.and_eq_true, decide_eq_true_eq] at hc1
                simp only [List.length_append]
                omega
            · exact Option.noConfusion h
          · exact Option.noConfusion h
        · exact Option.noConfusion h
    · exact Option.noConfusion h
  · exact Option.noConfusion h

theorem withPfx_split {core : List Char → Option (List Char × List Char)}
    (hcore : ∀ {s m r : List Char}, core s = some (m, r) → m ++ r = s ∧ 1 ≤ m.length)
    {s m r : List Char} (h : withPfx core s = some (m, r)) :
    m ++ r = s ∧ 1 ≤ m.length := by
  unfold withPfx at h
  split at h
  · rename_i p rest hpfx
    split at h
    · rename_i mm rr hcorer
      obtain ⟨rfl, rfl⟩ := Prod.mk.injEq .. ▸ Option.some.inj h
      obtain ⟨hp1, hp2⟩ := tryPfx_split hpfx
      obtain ⟨hcr1, hcr2⟩ := hcore hcorer
      constructor
      · rw [List.append_assoc, hcr1, hp1]
      · simp only [List.length_append]
        omega
    · exact hcore h
  · exact hcore h

theorem matchRangeAt_split {s m r : List Char} (h : matchRangeAt s = some (m, r)) :
    m ++ r = s ∧ 1 ≤ m.length :=
  withPfx_split (fun hc => rangeCore_split hc) h

theorem matchCellAt_split {s m r : List Char} (h : matchCellAt s = some (m, r)) :
    m ++ r = s ∧ 1 ≤ m.length :=
  withPfx_split (fun hc => cellCore_split hc) h

/-- The global scan is a partition: the removed text plus the matched
substrings account for every character of the input. -/
theorem scanAllF_length
    {tryM : List Char → Option (List Char × List Char)}
    (htry : ∀ {s m r : List Char}, tryM s = some (m, r) → m ++ r = s ∧ 1 ≤ m.length) :
    ∀ (fuel : Nat) (s : List Char), s.length ≤ fuel →
      (scanAllF tryM fuel s).2.length +
        ((scanAllF tryM fuel s).1.map List.length).sum = s.length := by
  intro fuel
  induction fuel with
  | zero =>
    intro s hs
    cases s with
    | nil => simp [scanAllF]
    | cons c rest => exact absurd hs (by simp)
  | succ f ih =>
    intro s hs
    cases s with
    | nil => simp [scanAllF]
    | cons c rest =>
      cases htm : tryM (c :: rest) with
      | some pr =>
        obtain ⟨m, r⟩ := pr
        obtain ⟨hsplit, hm⟩ := htry htm
        have hmr : m.length + r.length = rest.length + 1 := by
          have hx : (m ++ r).length = (c :: rest).length := by rw [hsplit]
          simpa using hx
        have hr : r.length ≤ f := by
          simp only [List.length_cons] at hs
          omega
        have hrec2 := ih r hr
        cases hrec : scanAllF tryM f r with
        | mk ms out =>
          rw [hrec] at hrec2
          simp only [scanAllF, htm, hrec, List.map_cons, List.sum_cons, List.length_cons]
          simp only at hrec2
          omega
      | none =>
        have hrec2 := ih rest (by simpa using hs)
        cases hrec : scanAllF tryM f rest with
        | mk ms out =>
          rw [hrec] at hrec2
          simp only [scanAllF, htm, hrec, List.length_cons]
          simp only at hrec2
          omega

/-- C8: `dependencies` first extracts every match of the range pattern
(optional alphanumeric sheet prefix with `!`, 1-3 column letters, 1-4 row
digits, colon, column letters, row digits), then matches single-cell
references only against the text remaining after the range matches are
removed; every match is a nonempty contiguous chunk of its input and the
scan removes exactly the matched text (remainder length plus matched
lengths equals the input length), so a cell reference inside an extracted
range is never also counted as a standalone cell dependency; either
collection may be empty (JavaScript `null`); and on "SUM(A1:A3)+B2" the
result is ranges ["A1:A3"] and cells ["B2"], whereas a single-pass cell
match on the raw text would also pick up A1 and A3 from inside the range. -/
theorem formula_dependencies_two_pass :
    (∀ f, dependenciesOf f =
      (jsMatch matchRangeAt f, jsMatch matchCellAt (jsReplace matchRangeAt f))) ∧
    (∀ l m r : List Char, matchRangeAt l = some (m, r) → m ++ r = l ∧ 1 ≤ m.length) ∧
    (∀ f : String, (jsReplace matchRangeAt f).toList.length +
      ((scanAllF matchRangeAt f.toList.length f.toList).1.map List.length).sum =
        f.toList.length) ∧
    dependenciesOf "SUM(A1:A3)+B2" = (some ["A1:A3"], some ["B2"]) ∧
    jsMatch matchCellAt "SUM(A1:A3)+B2" = some ["A1", "A3", "B2"] ∧
    dependenciesOf "1+2" = (none, none) ∧
    dependenciesOf "SUM(A1:A3)" = (some ["A1:A3"], none) ∧
    dependenciesOf "B2+B3" = (none, some ["B2", "B3"]) := by
  refine ⟨fun f => rfl, fun l m r h => matchRangeAt_split h, ?_, by decide, by decide,
    by decide, by decide, by decide⟩
  intro f
  have h := scanAllF_length (fun hx => matchRangeAt_split hx) f.toList.length f.toList
    (Nat.le_refl _)
  simpa [jsReplace, String.toList] using h

/-- C8 witness: the prefix-split clause applied to the concrete range text
"A1:B2", which the range pattern matches whole. -/
theorem formula_dependencies_two_pass_witness :
    (['A', '1', ':', 'B', '2'] : List Char) ++ [] = ['A', '1', ':', 'B', '2'] ∧
      1 ≤ (['A', '1', ':', 'B', '2'] : List Char).length :=
  formula_dependencies_two_pass.2.1 ['A', '1', ':', 'B', '2'] ['A', '1', ':', 'B', '2'] []
    (by decide)

/-- Computation of a successful non-forwarded value assignment. -/
theorem setValueF_nonmerge {s : Sheet} {i : Nat} {c : CellSt} {v : JSVal} {t : VType}
    (hc : s[i]? = some c) (hnm : c.value.typeOf ≠ .merge) (hv : Value.getType v = .ok t) :
    setValueF 1 s i v =
      (modifyAt s i (fun ci => putVal (Value.createPlain t ci.address v) ci), none) := by
  cases hcv : c.value with
  | mergeV m mm r => exact absurd (by rw [hcv]; rfl) hnm
  | nullV mo =>
    unfold setValueF
    simp only [hc, hcv, hv]
  | numberV mo =>
    unfold setValueF
    simp only [hc, hcv, hv]
  | stringV mo =>
    unfold setValueF
    simp only [hc, hcv, hv]
  | dateV mo =>
    unfold setValueF
    simp only [hc, hcv, hv]
  | hyperV mo =>
    unfold setValueF
    simp only [hc, hcv, hv]
  | formulaV mo =>
    unfold setValueF
    simp only [hc, hcv, hv]

/-- C3 (amended): on a cell that is not a Merge slave, writing a payload of
inferred type T and reading `cell.value` back returns: the payload itself
for String, Number and Date; `null` for the Null type (so writing
`undefined` reads back as `null`, the one deviation from exact equality);
and for Hyperlink and Formula a fresh object agreeing field-wise (`text`
and `hyperlink`, respectively `formula` and `result`) with the payload.
The inferred type is never Merge, so the Merge case is vacuous. -/
theorem value_roundtrip :
    ∀ (s : Sheet) (i : Nat) (c : CellSt) (v : JSVal) (t : VType),
      s[i]? = some c → c.value.typeOf ≠ .merge → Value.getType v = .ok t →
      (setValueF 1 s i v).2 = none ∧
      t ≠ .merge ∧
      (t = .null → readValue (setValueF 1 s i v).1 i = .ok .vNull) ∧
      (t = .string → readValue (setValueF 1 s i v).1 i = .ok v) ∧
      (t = .number → readValue (setValueF 1 s i v).1 i = .ok v) ∧
      (t = .date → readValue (setValueF 1 s i v).1 i = .ok v) ∧
      (t = .hyperlink → readValue (setValueF 1 s i v).1 i =
        .ok (.vObj (jsText v) (jsHyperlink v) .vUndef .vUndef)) ∧
      (t = .formula → readValue (setValueF 1 s i v).1 i =
        .ok (.vObj .vUndef .vUndef (jsFormula v) (jsResult v))) := by
  intro s i c v t hc hnm hv
  have hset := setValueF_nonmerge hc hnm hv
  have hc' : (setValueF 1 s i v).1[i]? =
      some (putVal (Value.createPlain t c.address v) c) := by
    rw [hset, getq_modifyAt_self, hc]
    rfl
  refine ⟨by rw [hset], getType_ne_merge hv, ?_, ?_, ?_, ?_, ?_, ?_⟩
  · intro ht
    subst ht
    simp [readValue, readValueF, hc', putVal, Value.createPlain]
  · intro ht
    subst ht
    simp [readValue, readValueF, hc', putVal, Value.createPlain]
  · intro ht
    subst ht
    simp [readValue, readValueF, hc', putVal, Value.createPlain]
  · intro ht
    subst ht
    simp [readValue, readValueF, hc', putVal, Value.createPlain]
  · intro ht
    subst ht
    have htr : truthy v = true := by
      cases v <;> simp_all [Value.getType, truthy]
    simp [readValue, readValueF, hc', putVal, Value.createPlain, htr]
  · intro ht
    subst ht
    have htr : truthy v = true := by
      cases v with
      | vObj t2 h2 f2 r2 => rfl
      | vNull => simp [Value.getType] at hv
      | vUndef => simp [Value.getType] at hv
      | vBool b => simp [Value.getType] at hv
      | vNum n => simp [Value.getType] at hv
      | vStr s2 => simp [Value.getType] at hv
      | vDate d => simp [Value.getType] at hv
    simp [readValue, readValueF, hc', putVal, Value.createPlain, htr]

/-- C3 witness: writing the string "x" to a fresh cell succeeds and reads
back as exactly "x". -/
theorem value_roundtrip_witness :
    (setValueF 1 (initSheet [(.vBool true, "A1")]) 0 (.vStr "x")).2 = none ∧
    readValue (setValueF 1 (initSheet [(.vBool true, "A1")]) 0 (.vStr "x")).1 0 =
      .ok (.vStr "x") := by
  obtain ⟨h1, h2, h3, h4, hrest⟩ := value_roundtrip (initSheet [(.vBool true, "A1")]) 0
    (freshCell (.vBool true) "A1") (.vStr "x") .string (by decide) (by decide) (by decide)
  exact ⟨h1, h4 rfl⟩

/-- C3 counterexample: assigning `undefined` (inferred type Null) to a
fresh cell succeeds, but the read returns `null`, a JavaScript value
distinguishable from the written `undefined` (by `===` and `typeof`), so
the read is not equal to the written payload. -/
theorem value_roundtrip_undefined_counterexample :
    Value.getType .vUndef = .ok .null ∧
    (setValueF 1 (initSheet [(.vBool true, "A1")]) 0 .vUndef).2 = none ∧
    readValue (setValueF 1 (initSheet [(.vBool true, "A1")]) 0 .vUndef).1 0 = .ok .vNull ∧
    (JSVal.vNull ≠ .vUndef) := by decide

/-- Reading a non-Merge cell needs no forwarding: the fuel is irrelevant. -/
theorem readValueF_nonmerge_eq {s : Sheet} {i : Nat} {c : CellSt} (hc : s[i]? = some c)
    (hnm : c.value.typeOf ≠ .merge) (f g : Nat) :
    readValueF (f + 1) s i = readValueF (g + 1) s i := by
  cases hcv : c.value with
  | mergeV m mm r => exact absurd (by rw [hcv]; rfl) hnm
  | nullV mo => simp [readValueF, hc, hcv]
  | numberV mo => simp [readValueF, hc, hcv]
  | stringV mo => simp [readValueF, hc, hcv]
  | dateV mo => simp [readValueF, hc, hcv]
  | hyperV mo => simp [readValueF, hc, hcv]
  | formulaV mo => simp [readValueF, hc, hcv]

/-- Computation of `merge` on a cell whose current value is not a Merge. -/
theorem mergeOp_nonmerged {s : Sheet} {i j : Nat} {ci cj : CellSt}
    (hci : s[i]? = some ci) (hnm : ci.value.typeOf ≠ .merge) (hcj : s[j]? = some cj) :
    mergeOp s i j =
      (modifyAt (modifyAt s j incCount) i (putVal (.mergeV
        { freshVModel ci.address with mtype := some .merge, master := .vStr cj.address }
        (some j) false)), none) := by
  unfold mergeOp
  simp only [hci, releaseVal_nonmerge hci hnm, hcj]

/-- Computation of `unmerge` on a Merge cell with a live in-range master. -/
theorem unmergeOp_merge {s : Sheet} {i : Nat} {ci ck : CellSt} {m : VModel} {k : Nat}
    {r : Bool} (hci : s[i]? = some ci) (hv : ci.value = .mergeV m (some k) r)
    (hk : s[k]? = some ck) :
    unmergeOp s i =
      (modifyAt (modifyAt (modifyAt s k decCount) i relVal) i
        (fun c => putVal (Value.createPlain .null c.address .vUndef) c), none) := by
  unfold unmergeOp
  simp only [hci, hv, releaseVal_merge hci hv hk]

/-- `unmerge` on a cell whose type is not Merge changes nothing. -/
theorem unmergeOp_nonmerge {s : Sheet} {i : Nat} {ci : CellSt} (hci : s[i]? = some ci)
    (hnm : ci.value.typeOf ≠ .merge) : unmergeOp s i = (s, none) := by
  unfold unmergeOp
  cases hcv : ci.value with
  | mergeV m mm r => exact absurd (by rw [hcv]; rfl) hnm
  | nullV mo => simp only [hci, hcv]
  | numberV mo => simp only [hci, hcv]
  | stringV mo => simp only [hci, hcv]
  | dateV mo => simp only [hci, hcv]
  | hyperV mo => simp only [hci, hcv]
  | formulaV mo => simp only [hci, hcv]

/-- Forwarding step of the value setter on a Merge cell with a live master. -/
theorem setValueF_forward {s : Sheet} {i : Nat} {c : CellSt} {m : VModel} {j : Nat}
    {r : Bool} (hc : s[i]? = some c) (hv : c.value = .mergeV m (some j) r) (f : Nat)
    (v : JSVal) : setValueF (f + 1) s i v = setValueF f s j v := by
  simp only [setValueF, hc, hv]

/-- Forwarding step of the value getter on a Merge cell with a live master. -/
theorem readValueF_merge_step {s : Sheet} {i : Nat} {c : CellSt} {m : VModel} {j : Nat}
    {r : Bool} (hc : s[i]? = some c) (hv : c.value = .mergeV m (some j) r) (f : Nat) :
    readValueF (f + 1) s i = readValueF f s j := by
  simp only [readValueF, hc, hv]

/-- C4: for cells A and B with B not merged (type not Merge, counter 0),
A's counter 0, A not itself a Merge slave (the spec's no-merge-chain caller
contract) and A distinct from B: after `B.merge(A)` the type of B is Merge,
A's counter is 1, B's master is reference-identical to A, `B.isMergedTo(A)`
holds, and reading B's value reads A's value; assigning a plain scalar
through B succeeds and makes A's value that scalar; afterwards
`B.unmerge()` succeeds, restoring A's counter to 0 and B's type to Null;
and `unmerge` on any cell whose type is not Merge changes nothing. -/
theorem merge_semantics :
    ∀ (s : Sheet) (A B : Nat) (cA cB : CellSt) (v : JSVal),
      s[A]? = some cA → s[B]? = some cB → A ≠ B →
      cA.value.typeOf ≠ .merge → cA.mergeCount = 0 →
      cB.value.typeOf ≠ .merge → cB.mergeCount = 0 →
      ((∃ n, v = JSVal.vNum n) ∨ (∃ str, v = JSVal.vStr str)) →
      ∀ s1, s1 = (mergeOp s B A).1 →
      ∀ s2, s2 = (setValueF 2 s1 B v).1 →
      ∀ s3, s3 = (unmergeOp s2 B).1 →
      (mergeOp s B A).2 = none ∧
      cellType s1 B = some .merge ∧
      (s1[A]?).map CellSt.mergeCount = some 1 ∧
      cellMaster s1 B = some A ∧
      isMergedTo s1 B A = true ∧
      readValue s1 B = readValue s1 A ∧
      (setValueF 2 s1 B v).2 = none ∧
      readValue s2 A = .ok v ∧
      (unmergeOp s2 B).2 = none ∧
      (s3[A]?).map CellSt.mergeCount = some 0 ∧
      cellType s3 B = some .null ∧
      (∀ (s' : Sheet) (i : Nat) (c' : CellSt), s'[i]? = some c' →
        c'.value.typeOf ≠ .merge → unmergeOp s' i = (s', none)) := by
  intro s A B cA cB v hA hB hAB hAnm hA0 hBnm hB0 hv s1 hs1 s2 hs2 s3 hs3
  have hBA : B ≠ A := Ne.symm hAB
  have hAlen : A < s.length := lt_of_getq_eq_some hA
  have hmerge := mergeOp_nonmerged hB hBnm hA
  rw [hmerge] at hs1
  have hS1B : s1[B]? = some (putVal (.mergeV
      { freshVModel cB.address with mtype := some .merge, master := .vStr cA.address }
      (some A) false) cB) := by
    rw [hs1, getq_modifyAt_self, getq_modifyAt_ne s incCount hBA, hB]
    rfl
  have hS1A : s1[A]? = some (incCount cA) := by
    rw [hs1, getq_modifyAt_ne _ _ hAB, getq_modifyAt_self, hA]
    rfl
  have hiA : (incCount cA).value.typeOf ≠ .merge := by
    rw [value_incCount]
    exact hAnm
  have hlen1 : s1.length = s.length := by
    rw [hs1, length_modifyAt, length_modifyAt]
  obtain ⟨n0, hn0⟩ : ∃ n0, s.length = n0 + 1 := ⟨s.length - 1, by omega⟩
  obtain ⟨tv, hgtv, htv⟩ : ∃ tv, Value.getType v = .ok tv ∧
      (tv = VType.number ∨ tv = VType.string) := by
    rcases hv with ⟨n, rfl⟩ | ⟨str, rfl⟩
    · exact ⟨.number, rfl, Or.inl rfl⟩
    · exact ⟨.string, rfl, Or.inr rfl⟩
  have hset2 : setValueF 2 s1 B v = (modifyAt s1 A
      (fun ci => putVal (Value.createPlain tv ci.address v) ci), none) := by
    have hfwd := setValueF_forward hS1B rfl 1 v
    exact hfwd.trans (setValueF_nonmerge hS1A hiA hgtv)
  have hs2A : s2[A]? = some (putVal (Value.createPlain tv cA.address v) (incCount cA)) := by
    rw [hs2, hset2, getq_modifyAt_self, hS1A]
    rfl
  have hs2B : s2[B]? = some (putVal (.mergeV
      { freshVModel cB.address with mtype := some .merge, master := .vStr cA.address }
      (some A) false) cB) := by
    rw [hs2, hset2]
    rw [getq_modifyAt_ne _ _ hBA]
    exact hS1B
  have hunm := unmergeOp_merge hs2B rfl hs2A
  refine ⟨by rw [hmerge], ?_, ?_, ?_, ?_, ?_, ?_, ?_, ?_, ?_, ?_, ?_⟩
  · simp [cellType, hS1B, putVal, Val.typeOf]
  · simp [hS1A, incCount, hA0]
  · simp [cellMaster, hS1B, putVal]
  · simp [isMergedTo, hS1B, putVal]
  · have h6 : readValue s1 B = readValueF s1.length s1 A :=
      readValueF_merge_step hS1B rfl s1.length
    have h6b : readValueF s1.length s1 A = readValue s1 A := by
      simp only [readValue]
      rw [hlen1, hn0]
      exact readValueF_nonmerge_eq hS1A hiA n0 (n0 + 1)
    exact h6.trans h6b
  · rw [hset2]
  · rcases htv with rfl | rfl <;>
      simp [readValue, readValueF, hs2A, putVal, Value.createPlain]
  · rw [hunm]
  · rw [hs3, hunm]
    simp only
    rw [getq_modifyAt_ne _ _ hAB, getq_modifyAt_ne _ _ hAB, getq_modifyAt_self, hs2A]
    simp [decCount, putVal, incCount, hA0]
  · rw [hs3, hunm]
    simp only
    rw [cellType, getq_modifyAt_self, getq_modifyAt_self, getq_modifyAt_ne _ _ hBA, hs2B]
    simp [putVal, relVal, Value.createPlain, Val.typeOf, Val.markReleased]
  · exact fun s' i c' h1 h2 => unmergeOp_nonmerge h1 h2

theorem modelOf_withModel (v : Val) (m : VModel) : (v.withModel m).modelOf = m := by
  cases v <;> rfl

theorem typeOf_withModel (v : Val) (m : VModel) : (v.withModel m).typeOf = v.typeOf := by
  cases v <;> rfl

/-- Rebuilding a non-Merge variant from its own type tag and overwriting
the model reproduces the variant. -/
theorem createPlain_withModel_eq {v : Val} (hnm : v.typeOf ≠ .merge) (a : String)
    (pv : JSVal) (m : VModel) :
    (Value.createPlain v.typeOf a pv).withModel m = v.withModel m := by
  cases v with
  | mergeV m0 mm r => exact absurd rfl hnm
  | nullV m0 => rfl
  | numberV m0 => rfl
  | stringV m0 => rfl
  | dateV m0 => rfl
  | hyperV m0 => rfl
  | formulaV m0 => rfl

/-- Computation of the `model` getter. -/
theorem readModelOp_eq {s : Sheet} {i : Nat} {c : CellSt} (hc : s[i]? = some c) :
    readModelOp s i = (some { c.value.modelOf with style := c.style },
      modifyAt s i (fun ci =>
        { ci with value := ci.value.withModel { c.value.modelOf with style := c.style } })) := by
  unfold readModelOp
  simp only [hc]

/-- Computation of a successful `model` setter. -/
theorem setModelOp_eq {s s1 : Sheet} {i : Nat} {c : CellSt} {m : VModel} {t : VType}
    (hc : s[i]? = some c) (hrel : releaseVal s i = (s1, none)) (hmt : m.mtype = some t) :
    setModelOp s i m = (modifyAt s1 i (fun ci =>
      { ci with value := (Value.createPlain t ci.address .vUndef).withModel m,
                style := if truthy m.style then m.style else emptyStyle }), none) := by
  unfold setModelOp
  simp only [hc, hrel, hmt]

/-- C2 (amended): importing any model `m` with a recognized type tag
succeeds (whenever the release of the current value succeeds) and a
subsequent `model` read returns a snapshot whose address, type, and every
type-specific field (value; text and hyperlink; formula and result;
master) equal those of `m`, for all seven types including Merge.
Moreover, on a cell whose current variant is not a Merge (with the stored
model's tag consistent with the variant and a truthy style, as every
reachable state has), `cell.model = cell.model` is a complete no-op on the
state.  (For a Merge cell the snapshot fields are reproduced, but the live
`_master` reference and the master's counter are not restored - see the
counterexample.) -/
theorem model_roundtrip :
    (∀ (s : Sheet) (i : Nat) (c : CellSt) (m : VModel) (t : VType) (s1 : Sheet),
      s[i]? = some c → releaseVal s i = (s1, none) → m.mtype = some t →
      (setModelOp s i m).2 = none ∧
      ∃ m', (readModelOp (setModelOp s i m).1 i).1 = some m' ∧
        m'.address = m.address ∧ m'.mtype = m.mtype ∧ m'.value = m.value ∧
        m'.text = m.text ∧ m'.hyperlink = m.hyperlink ∧ m'.formula = m.formula ∧
        m'.result = m.result ∧ m'.master = m.master) ∧
    (∀ (s : Sheet) (i : Nat) (c : CellSt),
      s[i]? = some c → c.value.typeOf ≠ .merge →
      c.value.modelOf.mtype = some c.value.typeOf → truthy c.style = true →
      setModelOp (readModelOp s i).2 i { c.value.modelOf with style := c.style } =
        ((readModelOp s i).2, none)) := by
  constructor
  · intro s i c m t s1 hc hrel hmt
    have hcalc := setModelOp_eq hc hrel hmt
    have hlen1 : s1.length = s.length := by
      rcases releaseVal_success hc hrel with ⟨_, rfl⟩ | ⟨m2, k, r, _, _, rfl⟩
      · rfl
      · rw [length_modifyAt, length_modifyAt]
    obtain ⟨c1, hc1⟩ := getq_eq_some_of_lt
      (show i < s1.length by rw [hlen1]; exact lt_of_getq_eq_some hc)
    have hfin : (setModelOp s i m).1[i]? = some { c1 with
        value := (Value.createPlain t c1.address .vUndef).withModel m,
        style := if truthy m.style then m.style else emptyStyle } := by
      rw [hcalc, getq_modifyAt_self, hc1]
      rfl
    refine ⟨by rw [hcalc], ?_⟩
    rw [readModelOp_eq hfin]
    simp only [modelOf_withModel]
    exact ⟨_, rfl, rfl, rfl, rfl, rfl, rfl, rfl, rfl, rfl⟩
  · intro s i c hc hnm hcons hstyle
    have hread := readModelOp_eq hc
    have hs1i : (readModelOp s i).2[i]? = some { c with
        value := c.value.withModel { c.value.modelOf with style := c.style } } := by
      rw [hread, getq_modifyAt_self, hc]
      rfl
    have hnm1 : ({ c with
        value := c.value.withModel { c.value.modelOf with style := c.style } } :
          CellSt).value.typeOf ≠ .merge := by
      simpa [typeOf_withModel] using hnm
    have hrel1 : releaseVal (readModelOp s i).2 i = ((readModelOp s i).2, none) :=
      releaseVal_nonmerge hs1i hnm1
    have hmt : ({ c.value.modelOf with style := c.style } : VModel).mtype =
        some c.value.typeOf := hcons
    have hcalc := setModelOp_eq hs1i hrel1 hmt
    rw [hcalc]
    have hfix : (fun ci => { ci with
        value := (Value.createPlain c.value.typeOf ci.address .vUndef).withModel
          { c.value.modelOf with style := c.style },
        style := if truthy ({ c.value.modelOf with style := c.style } : VModel).style
          then ({ c.value.modelOf with style := c.style } : VModel).style
          else emptyStyle })
        ({ c with value := c.value.withModel { c.value.modelOf with style := c.style } }) =
        { c with value := c.value.withModel { c.value.modelOf with style := c.style } } := by
      simp only [createPlain_withModel_eq hnm]
      simp [hstyle]
    rw [modifyAt_eq_self hs1i hfix]

/-- C2 witness: importing a Number model into a fresh cell and reading the
model back reproduces the payload. -/
theorem model_roundtrip_witness :
    (setModelOp (initSheet [(.vBool true, "A1")]) 0
      { freshVModel "A1" with mtype := some VType.number, value := JSVal.vNum 3 }).2 =
        none ∧
    ∃ m', (readModelOp (setModelOp (initSheet [(.vBool true, "A1")]) 0
        { freshVModel "A1" with mtype := some VType.number, value := JSVal.vNum 3 }).1 0).1 = some m' ∧ m'.value = JSVal.vNum 3 := by
  obtain ⟨h1, m', hm', ha, hmt, hval, hrest⟩ :=
    model_roundtrip.1 (initSheet [(.vBool true, "A1")]) 0 (freshCell (.vBool true) "A1")
      { freshVModel "A1" with mtype := some VType.number, value := JSVal.vNum 3 } .number
      (initSheet [(.vBool true, "A1")]) (by decide) (by decide) rfl
  exact ⟨h1, m', hm', hval⟩

/-- C2 counterexample: on a Merge cell, `cell.model = cell.model` is not an
observational no-op.  After merging B (cell 1) onto A (cell 0), reading B's
model and assigning it back succeeds and reproduces the snapshot fields,
but B's live master reference becomes `undefined` (the master getter
returns nothing instead of A) and A's merge counter drops from 1 to 0. -/
theorem model_roundtrip_merge_counterexample :
    (readModelOp (mergeOp (initSheet [(.vBool true, "A1"), (.vBool true, "B1")]) 1 0).1
        1).1 = some { freshVModel "B1" with mtype := some VType.merge, master := JSVal.vStr "A1", style := emptyStyle } ∧
    cellMaster ((readModelOp
      (mergeOp (initSheet [(.vBool true, "A1"), (.vBool true, "B1")]) 1 0).1 1).2) 1 =
        some 0 ∧
    (((readModelOp (mergeOp (initSheet [(.vBool true, "A1"), (.vBool true, "B1")]) 1 0).1
        1).2)[0]?).map CellSt.mergeCount = some 1 ∧
    (setModelOp ((readModelOp
        (mergeOp (initSheet [(.vBool true, "A1"), (.vBool true, "B1")]) 1 0).1 1).2) 1
      { freshVModel "B1" with mtype := some VType.merge, master := JSVal.vStr "A1", style := emptyStyle }).2 = none ∧
    cellMaster (setModelOp ((readModelOp
        (mergeOp (initSheet [(.vBool true, "A1"), (.vBool true, "B1")]) 1 0).1 1).2) 1
      { freshVModel "B1" with mtype := some VType.merge, master := JSVal.vStr "A1", style := emptyStyle }).1 1 = none ∧
    ((setModelOp ((readModelOp
        (mergeOp (initSheet [(.vBool true, "A1"), (.vBool true, "B1")]) 1 0).1 1).2) 1
      { freshVModel "B1" with mtype := some VType.merge, master := JSVal.vStr "A1", style := emptyStyle }).1[0]?).map CellSt.mergeCount = some 0 := by
  decide

/-- A failing `release()` leaves the sheet untouched. -/
theorem releaseVal_error_state {s s1 : Sheet} {i : Nat} {e : JsErr}
    (h : releaseVal s i = (s1, some e)) : s1 = s := by
  unfold releaseVal at h
  split at h
  · exact (congrArg Prod.fst h).symm
  · split at h
    · split at h
      · exact (congrArg Prod.fst h).symm
      · split at h
        · exact (congrArg Prod.fst h).symm
        · exact absurd (congrArg Prod.snd h) (by simp)
    · exact absurd (congrArg Prod.snd h) (by simp)

/-- C1 (amended): a failing `cell.value` assignment never mutates any state
(the release preceding the rebuild is a no-op on non-Merge variants and
Merge slaves only forward), and a failing `cell.model` assignment leaves
the state unchanged provided the cell's current variant is not a Merge
holding a live master; in that remaining case the release has already
decremented the master's counter when the factory throws - see the
counterexample. -/
theorem setter_atomicity :
    (∀ (f : Nat) (s : Sheet) (i : Nat) (v : JSVal) (e : JsErr),
      (setValueF f s i v).2 = some e → (setValueF f s i v).1 = s) ∧
    (∀ (s : Sheet) (i : Nat) (m : VModel) (e : JsErr),
      (setModelOp s i m).2 = some e →
      (∀ c, s[i]? = some c → c.value.isMergeWithMaster = false) →
      (setModelOp s i m).1 = s) := by
  constructor
  · intro f
    induction f with
    | zero => intro s i v e h; rfl
    | succ f ih =>
      intro s i v e h
      unfold setValueF at h ⊢
      cases hc : s[i]? with
      | none => simp [hc]
      | some c =>
        cases hcv : c.value with
        | mergeV m2 mm r =>
          cases mm with
          | none => simp [hc, hcv]
          | some j =>
            simp only [hc, hcv] at h ⊢
            exact ih s j v e h
        | nullV m2 =>
          cases hgt : Value.getType v with
          | error e2 => simp [hc, hcv, hgt]
          | ok t => simp [hc, hcv, hgt] at h
        | numberV m2 =>
          cases hgt : Value.getType v with
          | error e2 => simp [hc, hcv, hgt]
          | ok t => simp [hc, hcv, hgt] at h
        | stringV m2 =>
          cases hgt : Value.getType v with
          | error e2 => simp [hc, hcv, hgt]
          | ok t => simp [hc, hcv, hgt] at h
        | dateV m2 =>
          cases hgt : Value.getType v with
          | error e2 => simp [hc, hcv, hgt]
          | ok t => simp [hc, hcv, hgt] at h
        | hyperV m2 =>
          cases hgt : Value.getType v with
          | error e2 => simp [hc, hcv, hgt]
          | ok t => simp [hc, hcv, hgt] at h
        | formulaV m2 =>
          cases hgt : Value.getType v with
          | error e2 => simp [hc, hcv, hgt]
          | ok t => simp [hc, hcv, hgt] at h
  · intro s i m e h hnm
    cases hc : s[i]? with
    | none =>
      unfold setModelOp
      simp [hc]
    | some c =>
      rcases hrel : releaseVal s i with ⟨s1, e1⟩
      cases e1 with
      | some e2 =>
        have hs1 : s1 = s := releaseVal_error_state hrel
        subst hs1
        unfold setModelOp
        simp [hc, hrel]
      | none =>
        have hs1 : s1 = s := by
          rcases releaseVal_success hc hrel with ⟨_, h'⟩ | ⟨m2, k, r, hv, _, _⟩
          · exact h'
          · have hx := hnm c hc
            rw [hv] at hx
            simp [Val.isMergeWithMaster] at hx
        subst hs1
        cases hmt : m.mtype with
        | none =>
          unfold setModelOp
          simp [hc, hrel, hmt]
        | some t =>
          have hcalc := setModelOp_eq hc hrel hmt
          rw [hcalc] at h
          simp at h

/-- C1 witness: assigning an unclassifiable payload (a boolean) to a fresh
cell raises `unrecognizedType` and leaves the sheet exactly as it was. -/
theorem setter_atomicity_witness :
    (setValueF 1 (initSheet [(.vBool true, "A1")]) 0 (.vBool true)).1 =
      initSheet [(.vBool true, "A1")] :=
  setter_atomicity.1 1 (initSheet [(.vBool true, "A1")]) 0 (.vBool true)
    .unrecognizedType (by decide)

/-- C1 counterexample: a failing model import is not atomic.  With B (cell
1) merged onto A (cell 0), importing a model whose type tag is outside the
closed set throws `unknownValueType`, but only after the release has
already decremented A's merge counter from 1 to 0: the observable state
changed although the operation failed. -/
theorem setter_atomicity_counterexample :
    (setModelOp (mergeOp (initSheet [(.vBool true, "A1"), (.vBool true, "B1")]) 1 0).1 1
      (freshVModel "B1")).2 = some .unknownValueType ∧
    ((mergeOp (initSheet [(.vBool true, "A1"), (.vBool true, "B1")]) 1 0).1[0]?).map
      CellSt.mergeCount = some 1 ∧
    ((setModelOp (mergeOp (initSheet [(.vBool true, "A1"), (.vBool true, "B1")]) 1 0).1 1
      (freshVModel "B1")).1[0]?).map CellSt.mergeCount = some 0 ∧
    (setModelOp (mergeOp (initSheet [(.vBool true, "A1"), (.vBool true, "B1")]) 1 0).1 1
      (freshVModel "B1")).1 ≠
      (mergeOp (initSheet [(.vBool true, "A1"), (.vBool true, "B1")]) 1 0).1 := by
  decide

/-- C5 (amended): in every state reachable by successfully completing
public operations, each cell's `_mergeCount` equals the number of live
(not-yet-released) Merge variants whose master reference points at it, and
is in particular never negative; and re-targeting a slave from master `k`
to a different master `j` decrements `k`'s counter by exactly one,
increments `j`'s by exactly one, and leaves every other counter unchanged.
(An operation that throws can break the invariant mid-flight - see the
counterexample.) -/
theorem merge_count_invariant :
    (∀ s, Reachable s →
      ∀ (t : Nat) (c : CellSt), s[t]? = some c →
        isLive c.value = true ∧ c.mergeCount = (refCount s t : Int) ∧
          0 ≤ c.mergeCount) ∧
    (∀ (s s' : Sheet) (i j k : Nat) (ci : CellSt) (m : VModel) (r : Bool),
      s[i]? = some ci → ci.value = .mergeV m (some k) r →
      retargetOp s i j = (s', none) → k < s.length → j < s.length → j ≠ k →
      countAt s' k = countAt s k - 1 ∧ countAt s' j = countAt s j + 1 ∧
        ∀ t, t ≠ k → t ≠ j → countAt s' t = countAt s t) := by
  constructor
  · intro s hr t c hc
    obtain ⟨hl, hg⟩ := inv_reachable hr
    have hgt := hg t c hc
    exact ⟨hl t c hc, hgt, by rw [hgt]; exact Int.natCast_nonneg _⟩
  · intro s s' i j k ci m r hci hv hop hk hj hjk
    obtain ⟨ci2, m2, mm2, r2, hci2, hv2, hs'⟩ := retargetOp_success_shape hop
    rw [hci] at hci2
    have hcc : ci = ci2 := Option.some.inj hci2
    subst hcc
    rw [hv] at hv2
    injection hv2 with hm hmm hr
    subst hm
    subst hmm
    subst hr
    have hs'2 : s' = modifyAt (modifyAt (modifyAt s k decCount) j incCount) i
        (putVal (.mergeV m (some j) r)) := hs'
    have key : ∀ t, countAt s' t =
        if t = j then countAt (modifyAt s k decCount) t + 1
        else countAt (modifyAt s k decCount) t := by
      intro t
      rw [hs'2]
      rw [countAt_modifyAt_valonly
        (modifyAt (modifyAt s k decCount) j incCount) i
        (putVal (.mergeV m (some j) r)) (fun c => rfl) t]
      rw [countAt_modifyAt_inc]
      rw [length_modifyAt]
      by_cases htj : t = j
      · simp [htj, hj]
      · simp [htj]
    refine ⟨?_, ?_, ?_⟩
    · rw [key k]
      have hkj : ¬ (k = j) := fun hh => hjk hh.symm
      rw [if_neg hkj]
      rw [countAt_modifyAt_dec]
      simp [hk]
    · rw [key j, if_pos rfl, countAt_modifyAt_dec]
      have hnd : ¬ (j = k ∧ k < s.length) := fun hh => hjk hh.1
      rw [if_neg hnd]
    · intro t htk htj
      rw [key t, if_neg htj, countAt_modifyAt_dec]
      have hnd : ¬ (t = k ∧ k < s.length) := fun hh => htk hh.1
      rw [if_neg hnd]

/-- C5 witness: with C1 merged onto A1 (cells 1 and 0 of a three-cell
sheet), re-targeting the slave onto cell 2 moves exactly one unit of merge
count from cell 0 to cell 2. -/
theorem merge_count_invariant_witness :
    countAt (retargetOp (mergeOp (initSheet
      [(.vBool true, "A1"), (.vBool true, "B1"), (.vBool true, "C1")]) 1 0).1 1 2).1 0 =
      countAt (mergeOp (initSheet
        [(.vBool true, "A1"), (.vBool true, "B1"), (.vBool true, "C1")]) 1 0).1 0 - 1 ∧
    countAt (retargetOp (mergeOp (initSheet
      [(.vBool true, "A1"), (.vBool true, "B1"), (.vBool true, "C1")]) 1 0).1 1 2).1 2 =
      countAt (mergeOp (initSheet
        [(.vBool true, "A1"), (.vBool true, "B1"), (.vBool true, "C1")]) 1 0).1 2 + 1 := by
  obtain ⟨h1, h2, _⟩ := merge_count_invariant.2
    (mergeOp (initSheet
      [(.vBool true, "A1"), (.vBool true, "B1"), (.vBool true, "C1")]) 1 0).1
    (retargetOp (mergeOp (initSheet
      [(.vBool true, "A1"), (.vBool true, "B1"), (.vBool true, "C1")]) 1 0).1 1 2).1
    1 2 0
    ⟨.vBool true, "B1", emptyStyle,
      .mergeV ⟨.vStr "B1", some VType.merge, .vUndef, .vUndef, .vUndef, .vUndef,
        .vUndef, .vStr "A1", .vUndef⟩ (some 0) false, 0, none⟩
    ⟨.vStr "B1", some VType.merge, .vUndef, .vUndef, .vUndef, .vUndef, .vUndef,
      .vStr "A1", .vUndef⟩
    false
    (by decide) (by decide) (by decide) (by decide) (by decide) (by decide)
  exact ⟨h1, h2⟩

/-- C5 counterexample: the claim's "every state reachable by the public
operations" is too strong.  Merge B (cell 1) onto A (cell 0); a model
assignment on B with an unrecognizable type tag throws only after releasing
B's Merge (A's counter already 1 → 0, the released variant still
installed, so the sheet is no longer all-live); a subsequent `unmerge()`
of B succeeds and releases that same variant a second time, driving A's
`_mergeCount` to −1 while zero live Merge variants point at it. -/
theorem merge_count_invariant_counterexample :
    (setModelOp (mergeOp (initSheet [(.vBool true, "A1"), (.vBool true, "B1")]) 1 0).1 1
      (freshVModel "B1")).2 = some .unknownValueType ∧
    allLive (setModelOp (mergeOp (initSheet
      [(.vBool true, "A1"), (.vBool true, "B1")]) 1 0).1 1 (freshVModel "B1")).1 = false ∧
    (unmergeOp (setModelOp (mergeOp (initSheet
      [(.vBool true, "A1"), (.vBool true, "B1")]) 1 0).1 1 (freshVModel "B1")).1 1).2 = none ∧
    countAt (unmergeOp (setModelOp (mergeOp (initSheet
      [(.vBool true, "A1"), (.vBool true, "B1")]) 1 0).1 1 (freshVModel "B1")).1 1).1 0 = -1 ∧
    refCount (unmergeOp (setModelOp (mergeOp (initSheet
      [(.vBool true, "A1"), (.vBool true, "B1")]) 1 0).1 1 (freshVModel "B1")).1 1).1 0 = 0 := by
  decide

/-- C4 witness: on a fresh two-cell sheet, merging B1 (cell 1) onto A1
(cell 0) succeeds, makes B's type Merge, and a subsequent scalar write
through B lands in A. -/
theorem merge_semantics_witness :
    (mergeOp (initSheet [(.vBool true, "A1"), (.vBool true, "B1")]) 1 0).2 = none ∧
    cellType (mergeOp (initSheet
      [(.vBool true, "A1"), (.vBool true, "B1")]) 1 0).1 1 = some .merge ∧
    readValue (setValueF 2 (mergeOp (initSheet
      [(.vBool true, "A1"), (.vBool true, "B1")]) 1 0).1 1 (.vNum 5)).1 0 =
      .ok (.vNum 5) := by
  obtain ⟨h1, h2, h3, h4, h5, h6, h7, h8, hrest⟩ := merge_semantics
    (initSheet [(.vBool true, "A1"), (.vBool true, "B1")]) 0 1
    (freshCell (.vBool true) "A1") (freshCell (.vBool true) "B1") (.vNum 5)
    (by decide) (by decide) (by decide) (by decide) (by decide) (by decide) (by decide)
    (Or.inl ⟨5, rfl⟩)
    _ rfl _ rfl _ rfl
  exact ⟨h1, h2, h8⟩
